import Mathlib

/- Shallow embedding of the OpenDesk native core
   (src/aplicativo/src-tauri/src/udp_lan.rs and lan_input.rs).

   Conventions of the embedding:
   * machine bytes are `Fin 256` (`Byte`); multi-byte integer fields are `Nat`
     obtained from explicit big-endian byte decoding, so their u16/u32/u64
     bounds follow from the byte bounds;
   * the `i64` accumulator `last_delivered_seq` is `Int` (initially `-1`),
     and the Rust `as u32` cast is an explicit `% 2^32`;
   * wall/monotonic clocks (`Instant`, `now_us`, `now_ms`) are explicit `Nat`
     (or `Int`) parameters supplied with each loop iteration;
   * the floating-point jitter EMA (`jitter_ms`) and the derived stats-event
     quantities (`lossPct`, `fpsAssembled`, `bitrateKbps`) are not modelled:
     they are `f64` values that influence no control flow and no claim;
   * the event bus (`app.emit`) is modelled by returning the emitted frame
     events; sockets are modelled by feeding received datagrams (plus the
     sending remote, an abstract `Nat` endpoint id) to the loop as data. -/

abbrev Byte := Fin 256

/-- Big-endian value of a list of bytes (`uN::from_be_bytes`). -/
def beBytes (l : List Byte) : Nat := l.foldl (fun acc b => acc * 256 + b.val) 0

/-- `buf[i]`, with the (never-hit in guarded code) default 0. -/
def byteAt (buf : List Byte) (i : Nat) : Byte := buf.getD i 0

def UDP_MAGIC : Nat := 0x4f44
def UDP_VERSION : Nat := 1
def UDP_HEADER_SIZE : Nat := 38

/-- Wire datagram, `udp_lan.rs` `struct UdpDatagram`. -/
structure UdpDatagram where
  stream_id : List Byte
  seq : Nat
  timestamp_us : Nat
  flags : Byte
  chunk_index : Nat
  total_chunks : Nat
  payload : List Byte
deriving Repr, DecidableEq

/-- `udp_lan.rs` `fn parse_udp_datagram` (lines 286-327), translated
check-for-check from the source. -/
def parse_udp_datagram (buf : List Byte) : Option UdpDatagram :=
  if buf.length < UDP_HEADER_SIZE then none
  else
    let magic := beBytes [byteAt buf 0, byteAt buf 1]
    let version := (byteAt buf 2).val
    if magic ≠ UDP_MAGIC ∨ version ≠ UDP_VERSION then none
    else
      let flags := byteAt buf 3
      let stream_id := (buf.drop 4).take 16
      let seq := beBytes [byteAt buf 20, byteAt buf 21, byteAt buf 22, byteAt buf 23]
      let timestamp_us := beBytes [byteAt buf 24, byteAt buf 25, byteAt buf 26,
        byteAt buf 27, byteAt buf 28, byteAt buf 29, byteAt buf 30, byteAt buf 31]
      let chunk_index := beBytes [byteAt buf 32, byteAt buf 33]
      let total_chunks := beBytes [byteAt buf 34, byteAt buf 35]
      let payload_size := beBytes [byteAt buf 36, byteAt buf 37]
      if total_chunks = 0 then none
      else if total_chunks ≤ chunk_index then none
      else if buf.length ≠ UDP_HEADER_SIZE + payload_size then none
      else some { stream_id := stream_id, seq := seq, timestamp_us := timestamp_us,
                  flags := flags, chunk_index := chunk_index,
                  total_chunks := total_chunks, payload := buf.drop UDP_HEADER_SIZE }

/- ---------------------------------------------------------------------------
   Stream-id hex codec, `udp_lan.rs` lines 218-242.
   Strings are modelled as `List Char`. `str::trim` is modelled on ASCII
   whitespace and `to_lowercase` on ASCII letters; both agree with Rust on
   every ASCII input, and all hex material is ASCII.
--------------------------------------------------------------------------- -/

def isAsciiWs (c : Char) : Bool := c = ' ' || c = '\t' || c = '\n' || c = '\r'

def trimChars (s : List Char) : List Char :=
  ((s.dropWhile isAsciiWs).reverse.dropWhile isAsciiWs).reverse

def lowerAscii (c : Char) : Char :=
  if 'A' ≤ c ∧ c ≤ 'Z' then Char.ofNat (c.toNat + 32) else c

/-- Value of a single hexadecimal digit as accepted by
`char::to_digit(16)` (both cases). -/
def hexDigitVal (c : Char) : Option Nat :=
  if '0' ≤ c ∧ c ≤ '9' then some (c.toNat - '0'.toNat)
  else if 'a' ≤ c ∧ c ≤ 'f' then some (c.toNat - 'a'.toNat + 10)
  else if 'A' ≤ c ∧ c ≤ 'F' then some (c.toNat - 'A'.toNat + 10)
  else none

def hexDigitsVal : List Char → Option Nat
  | [] => none
  | [c] => hexDigitVal c
  | c :: rest =>
    match hexDigitVal c, hexDigitsVal rest with
    | some hi, some lo => some (hi * 16 + lo)
    | _, _ => none

/-- `u8::from_str_radix(s, 16)`: an optional leading `+` sign followed by at
least one hex digit, value within `u8` range.  (The documented behaviour of
`from_str_radix` for unsigned integer types; a leading `-` is rejected.) -/
def from_str_radix_u8_hex (s : List Char) : Option Byte :=
  let digits := match s with
    | c :: rest =>
      if c = '+' then (if rest.isEmpty then none else hexDigitsVal rest)
      else hexDigitsVal (c :: rest)
    | [] => none
  match digits with
  | some v => if h : v < 256 then some ⟨v, h⟩ else none
  | none => none

/-- The per-byte loop of `parse_stream_id_hex` (lines 225-232): consume the
normalized text two characters at a time, `i` tracking the byte index used in
the error message. -/
def parseStreamHexPairs : List Char → Nat → Except String (List Byte)
  | [], _ => .ok []
  | [_], _ => .ok []
  | hi :: lo :: rest, i =>
    match from_str_radix_u8_hex [hi, lo] with
    | some b =>
      match parseStreamHexPairs rest (i + 1) with
      | .ok tail => .ok (b :: tail)
      | .error e => .error e
    | none => .error ("streamId invalido no byte " ++ toString i ++ ".")

/-- `udp_lan.rs` `fn parse_stream_id_hex` (lines 218-234). -/
def parse_stream_id_hex (input : List Char) : Except String (List Byte) :=
  let normalized := ((trimChars input).filter (fun c => c ≠ '-')).map lowerAscii
  if normalized.length ≠ 32 then
    .error "streamId invalido: esperado UUID com 16 bytes."
  else parseStreamHexPairs normalized 0

/-- Lowercase hex digit for a value below 16 (the `{:02x}` digits). -/
def hexDigitChar (n : Nat) : Char :=
  if n < 10 then Char.ofNat ('0'.toNat + n) else Char.ofNat ('a'.toNat + (n - 10))

/-- `udp_lan.rs` `fn stream_id_to_hex` (lines 236-242): each byte printed as
two lowercase hex digits. -/
def stream_id_to_hex (stream_id : List Byte) : List Char :=
  stream_id.flatMap (fun b => [hexDigitChar (b.val / 16), hexDigitChar (b.val % 16)])

/- ---------------------------------------------------------------------------
   UDP receiver loop, `udp_lan.rs` `fn run_udp_receiver_loop` (lines 377-590).
--------------------------------------------------------------------------- -/

/-- `udp_lan.rs` `struct PendingFrame` (lines 182-190); `first_arrival` is the
monotonic clock in milliseconds. -/
structure PendingFrame where
  seq : Nat
  timestamp_us : Nat
  flags : Byte
  total_chunks : Nat
  chunks : List (Option (List Byte))
  received_chunks : Nat
  first_arrival : Nat
deriving Repr, DecidableEq

/-- `udp_lan.rs` `struct ReceiverStats` (lines 75-94) without the float jitter
EMA.  `gap_evicted_packets` is ghost instrumentation, not a source counter: it
tallies, at each gap eviction, the accepted datagrams sitting in the evicted
pending frames — the quantity the specification's accounting equation adds as
"datagrams that belonged to gap-evicted pending frames". -/
structure ReceiverStats where
  packets_received : Nat := 0
  packets_accepted : Nat := 0
  packets_invalid : Nat := 0
  packets_duplicate : Nat := 0
  packets_stream_mismatch : Nat := 0
  frames_completed : Nat := 0
  frames_dropped_timeout : Nat := 0
  frames_dropped_queue : Nat := 0
  frames_dropped_late : Nat := 0
  frames_dropped_gap : Nat := 0
  missing_chunks : Nat := 0
  keyframes_completed : Nat := 0
  bytes_reassembled : Nat := 0
  seq_gap_frames : Nat := 0
  remote_address : Option Nat := none
  gap_evicted_packets : Nat := 0
deriving Repr, DecidableEq

/-- `udp_lan.rs` `struct UdpLanFeedbackRoute` (lines 199-203). -/
structure UdpLanFeedbackRoute where
  remote : Option Nat := none
  active_stream_id : Option (List Byte) := none
deriving Repr, DecidableEq

/-- The receiver options actually read by the loop (`NormalizedOptions` minus
the bind address and stats cadence, which only configure I/O). -/
structure NormalizedOptions where
  expected_stream_id : Option (List Byte)
  max_frame_age_ms : Nat
  max_pending_frames : Nat
deriving Repr, DecidableEq

/-- `udp_lan.rs` `struct UdpLanFrameEvent` (lines 121-132); the base64 text is
kept as the raw reassembled payload. -/
structure UdpLanFrameEvent where
  streamId : List Char
  seq : Nat
  timestampUs : Nat
  flags : Byte
  totalChunks : Nat
  receivedChunks : Nat
  payloadBytes : Nat
  payload : List Byte
deriving Repr, DecidableEq

/-- The local mutable state of `run_udp_receiver_loop`: stats, the
`BTreeMap<u32, PendingFrame>` (as a key-sorted association list), the latched
stream id, `last_delivered_seq : i64`, the last transit sample, and the shared
feedback route. -/
structure RecvState where
  stats : ReceiverStats
  pending : List (Nat × PendingFrame)
  active_stream_id : Option (List Byte)
  last_delivered_seq : Int
  last_transit_us : Option Int
  route : UdpLanFeedbackRoute
deriving Repr, DecidableEq

def initialRecvState : RecvState :=
  { stats := {}, pending := [], active_stream_id := none,
    last_delivered_seq := -1, last_transit_us := none, route := {} }

/-- `BTreeMap::get`. -/
def pendingLookup : List (Nat × PendingFrame) → Nat → Option PendingFrame
  | [], _ => none
  | (k, f) :: rest, key => if key = k then some f else pendingLookup rest key

/-- `BTreeMap::insert` on a key-sorted association list. -/
def pendingInsert : List (Nat × PendingFrame) → Nat → PendingFrame → List (Nat × PendingFrame)
  | [], key, v => [(key, v)]
  | (k, f) :: rest, key, v =>
    if key < k then (key, v) :: (k, f) :: rest
    else if key = k then (key, v) :: rest
    else (k, f) :: pendingInsert rest key v

/-- `BTreeMap::remove` (the keys are unique). -/
def pendingErase : List (Nat × PendingFrame) → Nat → List (Nat × PendingFrame)
  | [], _ => []
  | (k, f) :: rest, key => if key = k then rest else (k, f) :: pendingErase rest key

/-- Rust `i64 as u32`: the low 32 bits. -/
def u32cast (i : Int) : Nat := (i % (2 ^ 32 : Int)).toNat

/-- `total_chunks.saturating_sub(received_chunks)` for an evicted frame. -/
def frameMissing (f : PendingFrame) : Nat := f.total_chunks - f.received_chunks

def staleMissing (l : List (Nat × PendingFrame)) : Nat :=
  (l.map (fun kf => frameMissing kf.2)).sum

def staleReceived (l : List (Nat × PendingFrame)) : Nat :=
  (l.map (fun kf => kf.2.received_chunks)).sum

/-- The chunk-concatenation loop at completion (lines 502-509): payload from
the filled slots in index order, plus the count of empty slots. -/
def assemblePayload : List (Option (List Byte)) → List Byte × Nat
  | [] => ([], 0)
  | some b :: rest => let r := assemblePayload rest; (b ++ r.1, r.2)
  | none :: rest => let r := assemblePayload rest; (r.1, r.2 + 1)

/-- The frame-completion path, `udp_lan.rs` lines 471-539: take the frame
out of the map, re-check lateness, evict pending entries below a gap,
assemble the payload and emit.  `stats2`, `active1`, `route1` and `transit`
are the values the iteration computed before this point. -/
def completeFrame (st : RecvState) (stats2 : ReceiverStats)
    (pending2 : List (Nat × PendingFrame)) (active1 : Option (List Byte))
    (route1 : UdpLanFeedbackRoute) (transit : Int) (packet : UdpDatagram) :
    RecvState × Option UdpLanFrameEvent :=
  match pendingLookup pending2 packet.seq with
  | none =>
    ({ st with stats := stats2, pending := pending2, active_stream_id := active1,
               route := route1, last_transit_us := some transit }, none)
  | some frame =>
    let pending3 := pendingErase pending2 packet.seq
    if frame.seq ≤ u32cast st.last_delivered_seq ∧ 0 ≤ st.last_delivered_seq then
      ({ st with stats :=
          { stats2 with frames_dropped_late := stats2.frames_dropped_late + 1 },
                 pending := pending3, active_stream_id := active1,
                 route := route1, last_transit_us := some transit }, none)
    else
      let gapPair :=
        if 0 ≤ st.last_delivered_seq ∧
            (u32cast st.last_delivered_seq + 1) % 2 ^ 32 < frame.seq then
          let gap : Int := (frame.seq : Int) - st.last_delivered_seq - 1
          let statsg := { stats2 with seq_gap_frames :=
            stats2.seq_gap_frames + (if 0 < gap then gap.toNat else 0) }
          let stale := pending3.filter (fun kf => decide (kf.1 < frame.seq))
          let kept := pending3.filter (fun kf => decide (¬ kf.1 < frame.seq))
          ({ statsg with
              missing_chunks := statsg.missing_chunks + staleMissing stale,
              frames_dropped_gap := statsg.frames_dropped_gap + stale.length,
              gap_evicted_packets := statsg.gap_evicted_packets + staleReceived stale },
           kept)
        else (stats2, pending3)
      let stats3 := gapPair.1
      let pending4 := gapPair.2
      let asm := assemblePayload frame.chunks
      if 0 < asm.2 then
        ({ st with stats :=
            { stats3 with
                frames_dropped_timeout := stats3.frames_dropped_timeout + 1,
                missing_chunks := stats3.missing_chunks + asm.2 },
                   pending := pending4, active_stream_id := active1,
                   route := route1, last_transit_us := some transit }, none)
      else
        let stream_id_hex := (active1.map stream_id_to_hex).getD []
        let ev : UdpLanFrameEvent :=
          { streamId := stream_id_hex, seq := frame.seq,
            timestampUs := frame.timestamp_us, flags := frame.flags,
            totalChunks := frame.total_chunks,
            receivedChunks := frame.received_chunks,
            payloadBytes := asm.1.length, payload := asm.1 }
        let statsF := { stats3 with
          frames_completed := stats3.frames_completed + 1,
          keyframes_completed :=
            stats3.keyframes_completed + (if frame.flags.val % 2 ≠ 0 then 1 else 0),
          bytes_reassembled := stats3.bytes_reassembled + asm.1.length }
        ({ st with stats := statsF, pending := pending4, active_stream_id := active1,
                   route := route1, last_transit_us := some transit,
                   last_delivered_seq := (frame.seq : Int) }, some ev)

/-- Chunk insertion into the pending map, `udp_lan.rs` lines 445-471:
entry-or-insert, total-chunks consistency, duplicate slot, slot fill, then
the completion path when the frame filled up. -/
def assembleChunk (st : RecvState) (stats1 : ReceiverStats)
    (active1 : Option (List Byte)) (route1 : UdpLanFeedbackRoute)
    (transit : Int) (packet : UdpDatagram) (now_ms : Nat) :
    RecvState × Option UdpLanFrameEvent :=
  let entry := (pendingLookup st.pending packet.seq).getD
    { seq := packet.seq, timestamp_us := packet.timestamp_us, flags := packet.flags,
      total_chunks := packet.total_chunks,
      chunks := List.replicate packet.total_chunks none,
      received_chunks := 0, first_arrival := now_ms }
  let pending1 := pendingInsert st.pending packet.seq entry
  if entry.total_chunks ≠ packet.total_chunks then
    ({ st with stats := { stats1 with packets_invalid := stats1.packets_invalid + 1 },
               pending := pendingErase pending1 packet.seq,
               active_stream_id := active1, route := route1,
               last_transit_us := some transit }, none)
  else if (entry.chunks.getD packet.chunk_index none).isSome then
    ({ st with stats := { stats1 with packets_duplicate := stats1.packets_duplicate + 1 },
               pending := pending1,
               active_stream_id := active1, route := route1,
               last_transit_us := some transit }, none)
  else
    let entry2 := { entry with
      chunks := entry.chunks.set packet.chunk_index (some packet.payload),
      received_chunks := entry.received_chunks + 1 }
    let pending2 := pendingInsert pending1 packet.seq entry2
    let stats2 := { stats1 with packets_accepted := stats1.packets_accepted + 1 }
    if entry2.received_chunks = entry2.total_chunks then
      completeFrame st stats2 pending2 active1 route1 transit packet
    else
      ({ st with stats := stats2, pending := pending2,
                 active_stream_id := active1, route := route1,
                 last_transit_us := some transit }, none)

/-- The per-packet part of the loop body, `udp_lan.rs` lines 404-539:
stream-id gating and latching, remote/route recording, transit sample, late
drop, then chunk assembly. -/
def processPacket (options : NormalizedOptions) (st : RecvState)
    (stats0 : ReceiverStats) (packet : UdpDatagram) (remote : Nat)
    (now_ms : Nat) (arrival_us : Int) : RecvState × Option UdpLanFrameEvent :=
  if options.expected_stream_id.any (fun expected => decide (expected ≠ packet.stream_id)) then
    ({ st with stats :=
        { stats0 with packets_stream_mismatch := stats0.packets_stream_mismatch + 1 } }, none)
  else if st.active_stream_id.any (fun id => decide (id ≠ packet.stream_id)) then
    ({ st with stats :=
        { stats0 with packets_stream_mismatch := stats0.packets_stream_mismatch + 1 } }, none)
  else
    let active1 := some (st.active_stream_id.getD packet.stream_id)
    let stats1 := { stats0 with remote_address :=
      if stats0.remote_address = none then some remote else stats0.remote_address }
    let route1 : UdpLanFeedbackRoute :=
      { remote := some remote, active_stream_id := some packet.stream_id }
    let transit : Int := arrival_us - (packet.timestamp_us : Int)
    if 0 ≤ st.last_delivered_seq ∧ packet.seq ≤ u32cast st.last_delivered_seq then
      ({ st with stats := { stats1 with frames_dropped_late := stats1.frames_dropped_late + 1 },
                 active_stream_id := active1, route := route1,
                 last_transit_us := some transit }, none)
    else
      assembleChunk st stats1 active1 route1 transit packet now_ms

/-- One received datagram, `udp_lan.rs` lines 394-539: count it, parse it,
then run the per-packet path.  `remote` is the sending endpoint, `now_ms`
the monotonic clock used for `Instant::now`, and `arrival_us` the wall clock
sampled for the transit estimate. -/
def processDatagram (options : NormalizedOptions) (st : RecvState)
    (buf : List Byte) (remote : Nat) (now_ms : Nat) (arrival_us : Int) :
    RecvState × Option UdpLanFrameEvent :=
  let stats0 := { st.stats with packets_received := st.stats.packets_received + 1 }
  match parse_udp_datagram buf with
  | none =>
    ({ st with stats := { stats0 with packets_invalid := stats0.packets_invalid + 1 } }, none)
  | some packet => processPacket options st stats0 packet remote now_ms arrival_us

/-- The timed-eviction pass (lines 550-567): drop every pending frame whose
first arrival is more than `max_frame_age_ms` old. -/
def timedEvict (options : NormalizedOptions) (st : RecvState) (now_ms : Nat) : RecvState :=
  let expired := st.pending.filter
    (fun kf => decide (options.max_frame_age_ms < now_ms - kf.2.first_arrival))
  let kept := st.pending.filter
    (fun kf => decide (¬ options.max_frame_age_ms < now_ms - kf.2.first_arrival))
  { st with pending := kept,
            stats := { st.stats with
              missing_chunks := st.stats.missing_chunks + staleMissing expired,
              frames_dropped_timeout := st.stats.frames_dropped_timeout + expired.length } }

/-- The queue-eviction loop (lines 569-580): while the map is over capacity,
remove the entry with the lowest key (the head of the sorted list). -/
def queueEvictGo (maxPending : Nat) :
    List (Nat × PendingFrame) → ReceiverStats → List (Nat × PendingFrame) × ReceiverStats
  | [], stats => ([], stats)
  | (k, f) :: rest, stats =>
    if maxPending < ((k, f) :: rest).length then
      queueEvictGo maxPending rest
        { stats with
            missing_chunks := stats.missing_chunks + frameMissing f,
            frames_dropped_queue := stats.frames_dropped_queue + 1 }
    else ((k, f) :: rest, stats)

def queueEvict (options : NormalizedOptions) (st : RecvState) : RecvState :=
  let r := queueEvictGo options.max_pending_frames st.pending st.stats
  { st with pending := r.1, stats := r.2 }

/-- One iteration of the receiver loop: an optional received datagram
(`none` models a `WouldBlock`/`TimedOut` receive), then the timed and queue
eviction passes.  The periodic stats emission reads state without changing
it and is omitted. -/
structure LoopInput where
  recv : Option (List Byte × Nat)
  now_ms : Nat
  arrival_us : Int
deriving Repr

def receiverStep (options : NormalizedOptions) (st : RecvState) (inp : LoopInput) :
    RecvState × Option UdpLanFrameEvent :=
  let r := match inp.recv with
    | some (buf, remote) => processDatagram options st buf remote inp.now_ms inp.arrival_us
    | none => (st, none)
  (queueEvict options (timedEvict options r.1 inp.now_ms), r.2)

/-- `run_udp_receiver_loop` over a finite iteration trace, collecting the
emitted `udp-lan-frame` events in order. -/
def run_udp_receiver_loop (options : NormalizedOptions) :
    RecvState → List LoopInput → RecvState × List UdpLanFrameEvent
  | st, [] => (st, [])
  | st, inp :: rest =>
    let r := receiverStep options st inp
    let t := run_udp_receiver_loop options r.1 rest
    (t.1, r.2.toList ++ t.2)

/- ---------------------------------------------------------------------------
   LAN input relay, `lan_input.rs`.
--------------------------------------------------------------------------- -/

/-- `lan_input.rs` `struct SharedServerStats` (lines 108-122). -/
structure SharedServerStats where
  authenticated_clients : Nat := 0
  auth_failures : Nat := 0
  events_received : Nat := 0
  events_injected : Nat := 0
  events_dropped_rate : Nat := 0
  events_dropped_inactive : Nat := 0
  inject_errors : Nat := 0
  mouse_moves : Nat := 0
  mouse_buttons : Nat := 0
  mouse_wheels : Nat := 0
  key_events : Nat := 0
  disconnect_hotkeys : Nat := 0
deriving Repr, DecidableEq

/-- `lan_input.rs` `enum ClientMessage` (lines 124-166). -/
inductive ClientMessage where
  | auth (token : String) (sessionId streamId : Option String) (version : Option Nat)
  | mouseMove (seq tsUs : Nat) (dx dy : Int)
  | mouseButton (seq tsUs : Nat) (button : Nat) (down : Bool)
  | mouseWheel (seq tsUs : Nat) (deltaX deltaY : Int)
  | key (seq tsUs : Nat) (code : String) (down : Bool) (ctrl alt shift meta : Option Bool)
  | disconnectHotkey (seq tsUs : Nat)
deriving Repr, DecidableEq

def ClientMessage.isAuth : ClientMessage → Bool
  | .auth _ _ _ _ => true
  | _ => false

/-- An OS `SendInput` request issued by the `injector` module, recorded as
data (the platform syscall itself is outside the model). -/
inductive InjectCall where
  | mouseMove (dx dy : Int)
  | mouseButton (button : Nat) (down : Bool)
  | mouseWheel (deltaX deltaY : Int)
  | key (code : String) (down : Bool)
deriving Repr, DecidableEq

/-- Rust `Ord::clamp` on `i32` values. -/
def rclamp (v lo hi : Int) : Int := min (max v lo) hi

/-- `lan_input.rs` `fn handle_input_event` (lines 596-641).  `injectOk` gives
the success of each issued OS injection (on non-Windows platforms it is
constantly `false`); the result carries the updated stats and the injector
request, if any, for this event. -/
def handle_input_event (injectOk : InjectCall → Bool) (event : ClientMessage)
    (session_active : Bool) (stats : SharedServerStats) :
    SharedServerStats × Option InjectCall :=
  let stats := { stats with events_received := stats.events_received + 1 }
  if ¬ session_active then
    ({ stats with events_dropped_inactive := stats.events_dropped_inactive + 1 }, none)
  else
    let r : SharedServerStats × Option InjectCall × Bool :=
      match event with
      | .mouseMove _ _ dx dy =>
        let c := InjectCall.mouseMove (rclamp dx (-300) 300) (rclamp dy (-300) 300)
        ({ stats with mouse_moves := stats.mouse_moves + 1 }, some c, injectOk c)
      | .mouseButton _ _ button down =>
        let c := InjectCall.mouseButton button down
        ({ stats with mouse_buttons := stats.mouse_buttons + 1 }, some c, injectOk c)
      | .mouseWheel _ _ deltaX deltaY =>
        let c := InjectCall.mouseWheel (rclamp deltaX (-960) 960) (rclamp deltaY (-960) 960)
        ({ stats with mouse_wheels := stats.mouse_wheels + 1 }, some c, injectOk c)
      | .key _ _ code down _ _ _ _ =>
        let c := InjectCall.key code down
        ({ stats with key_events := stats.key_events + 1 }, some c, injectOk c)
      | .disconnectHotkey _ _ =>
        ({ stats with disconnect_hotkeys := stats.disconnect_hotkeys + 1 }, none, true)
      | .auth _ _ _ _ => (stats, none, true)
    if r.2.2 then
      ({ r.1 with events_injected := r.1.events_injected + 1 }, r.2.1)
    else
      ({ r.1 with inject_errors := r.1.inject_errors + 1 }, r.2.1)

/-- The fields of `lan_input.rs` `struct ServerConfig` read by a connection
worker (lines 216-225 minus the bind address and stats cadence). -/
structure ServerConfig where
  auth_token : String
  auth_expires_at_ms : Option Nat
  session_id : Option String
  stream_id : Option String
  max_events_per_second : Nat
deriving Repr, DecidableEq

inductive AuthReply where
  | authOk
  | authError (reason : String)
deriving Repr, DecidableEq

/-- The authentication gate of `handle_client_connection`
(`lan_input.rs` lines 693-733): validity flags, precedence-ordered reason,
stats update and wire reply. -/
def authenticate (config : ServerConfig) (now_ms : Nat) (session_active : Bool)
    (token : String) (session_id stream_id : Option String)
    (stats : SharedServerStats) : SharedServerStats × AuthReply :=
  let token_ok := token == config.auth_token
  let token_expired := match config.auth_expires_at_ms with
    | some expires_at_ms => decide (expires_at_ms < now_ms)
    | none => false
  let session_ok := match config.session_id, session_id with
    | some expected, some provided => expected == provided
    | some _, none => false
    | _, _ => true
  let stream_ok := match config.stream_id, stream_id with
    | some expected, some provided => expected == provided
    | some _, none => false
    | _, _ => true
  let active_ok := session_active
  if ¬ (token_ok && !token_expired && session_ok && stream_ok && active_ok) then
    let reason :=
      if token_expired then "token_expired"
      else if !token_ok then "invalid_token"
      else if !session_ok then "invalid_session"
      else if !stream_ok then "invalid_stream"
      else "session_inactive"
    ({ stats with auth_failures := stats.auth_failures + 1 }, .authError reason)
  else
    ({ stats with authenticated_clients := stats.authenticated_clients + 1 }, .authOk)

/-- `lan_input.rs` `fn should_reset_rate_window` (lines 383-385):
`window_start.elapsed().as_secs_f64() >= 1.0`, with the monotonic clock in
milliseconds. -/
def should_reset_rate_window (window_start now_ms : Nat) : Bool :=
  1000 ≤ now_ms - window_start

/-- Per-connection worker state in the event phase of
`handle_client_connection`: the shared session-active atomic (which the
worker reads but never writes), the rate window, and the shared stats. -/
structure ConnState where
  session_active : Bool
  rate_window_start : Nat
  rate_events : Nat
  stats : SharedServerStats
deriving Repr, DecidableEq

/-- One iteration of the post-auth event loop (`lan_input.rs` lines 740-777)
in which a line was read at monotonic time `now_ms`.  `line` is the result of
`parse_json_line` (`none` = parse error).  Returns the successor state, the
injector request if one was issued, and whether the event was admitted past
the rate gate into `handle_input_event`. -/
def connStep (config : ServerConfig) (injectOk : InjectCall → Bool)
    (st : ConnState) (now_ms : Nat) (line : Option ClientMessage) :
    ConnState × Option InjectCall × Bool :=
  let st :=
    if should_reset_rate_window st.rate_window_start now_ms then
      { st with rate_window_start := now_ms, rate_events := 0 }
    else st
  match line with
  | none => (st, none, false)
  | some msg =>
    if msg.isAuth then (st, none, false)
    else if config.max_events_per_second ≤ st.rate_events then
      ({ st with stats :=
          { st.stats with events_dropped_rate := st.stats.events_dropped_rate + 1 } },
       none, false)
    else
      let st := { st with rate_events := st.rate_events + 1 }
      let r := handle_input_event injectOk msg st.session_active st.stats
      ({ st with stats := r.1 }, r.2, true)

/-- The event loop over a trace of timed lines, collecting the monotonic
times of the events admitted into the injection step. -/
def runConn (config : ServerConfig) (injectOk : InjectCall → Bool) :
    ConnState → List (Nat × Option ClientMessage) → ConnState × List Nat
  | st, [] => (st, [])
  | st, (now_ms, line) :: rest =>
    let r := connStep config injectOk st now_ms line
    let t := runConn config injectOk r.1 rest
    (t.1, (if r.2.2 then [now_ms] else []) ++ t.2)

/-- No iteration of the trace segment triggers a rate-window reset. -/
def noResetDuring (config : ServerConfig) (injectOk : InjectCall → Bool) :
    ConnState → List (Nat × Option ClientMessage) → Bool
  | _, [] => true
  | st, (now_ms, line) :: rest =>
    !should_reset_rate_window st.rate_window_start now_ms &&
      noResetDuring config injectOk (connStep config injectOk st now_ms line).1 rest

/- ---------------------------------------------------------------------------
   Feedback sender, `udp_lan.rs` `fn send_udp_lan_feedback` (lines 637-705).
   The `f64` fields travel as rationals (their clamps are pure order
   operations); JSON serialization and the `sendto` syscall are abstracted:
   the function returns the wire message together with the destination
   endpoint.  `slot` is the process-wide receiver slot (`none` when no
   receiver is running) and `route` the shared feedback route inside it.
--------------------------------------------------------------------------- -/

structure UdpLanFeedbackMessage where
  message_type : String
  version : Option Nat
  token : String
  sessionId : Option String
  streamId : Option String
  lossPct : Option ℚ
  jitterMs : Option ℚ
  freezeMs : Option Nat
  requestedBitrateKbps : Option Nat
  reason : Option String
deriving Repr, DecidableEq

structure UdpLanFeedbackWireMessage where
  message_type : String
  version : Nat
  token : String
  sessionId : Option String
  streamId : Option String
  lossPct : Option ℚ
  jitterMs : Option ℚ
  freezeMs : Option Nat
  requestedBitrateKbps : Option Nat
  reason : Option String
  sentAtUs : Nat
deriving Repr, DecidableEq

/-- `str::trim`, at the char-list level (ASCII whitespace; see the codec
section note). -/
def trimString (s : String) : String := String.mk (trimChars s.data)

/-- `str::is_empty`. -/
def stringIsEmpty (s : String) : Bool := s.data.isEmpty

def optTrimNonEmpty (v : Option String) : Option String :=
  match v.map trimString with
  | some s => if stringIsEmpty s then none else some s
  | none => none

def send_udp_lan_feedback (slot : Option UdpLanFeedbackRoute) (now_us : Nat)
    (message : UdpLanFeedbackMessage) :
    Except String (UdpLanFeedbackWireMessage × Nat) :=
  let message_type := trimString message.message_type
  if stringIsEmpty message_type then .error "type obrigatorio no feedback UDP."
  else
    let token := trimString message.token
    if stringIsEmpty token then .error "token obrigatorio no feedback UDP."
    else
      match slot with
      | none => .error "receiver UDP nao esta em execucao."
      | some route =>
        let default_stream_id :=
          route.active_stream_id.map (fun id => String.mk (stream_id_to_hex id))
        match route.remote with
        | none => .error "receiver UDP ainda nao possui remoto ativo."
        | some remote =>
          let stream_id := (optTrimNonEmpty message.streamId).or default_stream_id
          let session_id := optTrimNonEmpty message.sessionId
          let reason := optTrimNonEmpty message.reason
          let payload : UdpLanFeedbackWireMessage :=
            { message_type := message_type,
              version := message.version.getD 1,
              token := token,
              sessionId := session_id,
              streamId := stream_id,
              lossPct := message.lossPct.map (fun v => min (max v 0) 100),
              jitterMs := message.jitterMs.map (fun v => min (max v 0) 10000),
              freezeMs := message.freezeMs.map (fun v => min v 60000),
              requestedBitrateKbps :=
                message.requestedBitrateKbps.map (fun v => min (max v 100) 500000),
              reason := reason,
              sentAtUs := now_us }
          .ok (payload, remote)

/- ---------------------------------------------------------------------------
   Ordered-map lemmas for the pending-frame `BTreeMap` model.
--------------------------------------------------------------------------- -/

theorem pendingLookup_mem {m : List (Nat × PendingFrame)} {k : Nat} {f : PendingFrame}
    (h : pendingLookup m k = some f) : (k, f) ∈ m := by
  induction m with
  | nil => simp [pendingLookup] at h
  | cons a rest ih =>
    obtain ⟨ka, fa⟩ := a
    unfold pendingLookup at h
    by_cases hk : k = ka
    · subst hk
      simp at h
      subst h
      exact List.mem_cons_self _ _
    · simp [hk] at h
      exact List.mem_cons_of_mem _ (ih h)

theorem mem_pendingInsert {m : List (Nat × PendingFrame)} {k : Nat} {v : PendingFrame}
    {x : Nat × PendingFrame} (h : x ∈ pendingInsert m k v) : x = (k, v) ∨ x ∈ m := by
  induction m with
  | nil => simp [pendingInsert] at h; simp [h]
  | cons a rest ih =>
    obtain ⟨ka, fa⟩ := a
    unfold pendingInsert at h
    by_cases h1 : k < ka
    · simp [h1] at h
      rcases h with h | h | h
      · left; simp [h]
      · right; simp [h]
      · right; exact List.mem_cons_of_mem _ h
    · by_cases h2 : k = ka
      · subst h2
        simp [h1] at h
        rcases h with h | h
        · left; simp [h]
        · right; exact List.mem_cons_of_mem _ h
      · simp [h1, h2] at h
        rcases h with h | h
        · right; simp [h]
        · rcases ih h with h' | h'
          · left; exact h'
          · right; exact List.mem_cons_of_mem _ h'

theorem pendingInsert_sorted {m : List (Nat × PendingFrame)} {k : Nat} {v : PendingFrame}
    (h : List.Pairwise (fun a b => a.1 < b.1) m) :
    List.Pairwise (fun a b => a.1 < b.1) (pendingInsert m k v) := by
  induction m with
  | nil => simp [pendingInsert]
  | cons a rest ih =>
    obtain ⟨ka, fa⟩ := a
    rw [List.pairwise_cons] at h
    obtain ⟨hhead, htail⟩ := h
    unfold pendingInsert
    by_cases h1 : k < ka
    · simp only [if_pos h1]
      refine List.Pairwise.cons ?_ (List.Pairwise.cons hhead htail)
      intro b hb
      rcases List.mem_cons.mp hb with hb | hb
      · simp [hb, h1]
      · exact lt_trans h1 (hhead b hb)
    · by_cases h2 : k = ka
      · simp only [if_neg h1, if_pos h2]
        subst h2
        exact List.Pairwise.cons hhead htail
      · simp only [if_neg h1, if_neg h2]
        refine List.Pairwise.cons ?_ (ih htail)
        intro b hb
        rcases mem_pendingInsert hb with hb' | hb'
        · subst hb'
          omega
        · exact hhead b hb'

theorem pendingErase_sublist (m : List (Nat × PendingFrame)) (k : Nat) :
    (pendingErase m k).Sublist m := by
  induction m with
  | nil => simp [pendingErase]
  | cons a rest ih =>
    obtain ⟨ka, fa⟩ := a
    unfold pendingErase
    by_cases hk : k = ka
    · simp [hk]
    · simpa [hk] using ih.cons₂ (ka, fa)

theorem pendingLookup_pendingInsert_self (m : List (Nat × PendingFrame)) (k : Nat)
    (v : PendingFrame) : pendingLookup (pendingInsert m k v) k = some v := by
  induction m with
  | nil => simp [pendingInsert, pendingLookup]
  | cons a rest ih =>
    obtain ⟨ka, fa⟩ := a
    unfold pendingInsert
    by_cases h1 : k < ka
    · simp [h1, pendingLookup]
    · by_cases h2 : k = ka
      · simp [h1, h2, pendingLookup]
      · simp [h1, h2, pendingLookup, ih]

/- ---------------------------------------------------------------------------
   The receiver-loop invariant: `last_delivered_seq` stays in `[-1, 2^32)`,
   the pending map is key-sorted, and each pending frame records its own key
   as `seq`, a `u32` value.
--------------------------------------------------------------------------- -/

def RecvInv (st : RecvState) : Prop :=
  (-1 ≤ st.last_delivered_seq ∧ st.last_delivered_seq < 2 ^ 32) ∧
  List.Pairwise (fun a b => a.1 < b.1) st.pending ∧
  (∀ kf ∈ st.pending, kf.2.seq = kf.1 ∧ kf.2.seq < 2 ^ 32)

theorem recvInv_initial : RecvInv initialRecvState := by
  unfold RecvInv initialRecvState
  norm_num

theorem beBytes_four_lt (a b c d : Byte) : beBytes [a, b, c, d] < 2 ^ 32 := by
  have ha := a.isLt
  have hb := b.isLt
  have hc := c.isLt
  have hd := d.isLt
  simp only [beBytes, List.foldl]
  omega

theorem parse_seq_lt {buf : List Byte} {p : UdpDatagram}
    (h : parse_udp_datagram buf = some p) : p.seq < 2 ^ 32 := by
  simp only [parse_udp_datagram] at h
  split at h
  · exact absurd h (by simp)
  · split at h
    · exact absurd h (by simp)
    · split at h
      · exact absurd h (by simp)
      · split at h
        · exact absurd h (by simp)
        · split at h
          · exact absurd h (by simp)
          · simp only [Option.some.injEq] at h
            subst h
            exact beBytes_four_lt _ _ _ _

/-- The five per-datagram counter families of the accounting equation. -/
def fiveSum (s : ReceiverStats) : Nat :=
  s.packets_accepted + s.packets_invalid + s.packets_duplicate +
    s.packets_stream_mismatch + s.frames_dropped_late

theorem forall_mem_pendingInsert {P : Nat × PendingFrame → Prop}
    {m : List (Nat × PendingFrame)} {k : Nat} {v : PendingFrame}
    (hm : ∀ kf ∈ m, P kf) (hv : P (k, v)) : ∀ kf ∈ pendingInsert m k v, P kf :=
  fun kf hkf => (mem_pendingInsert hkf).elim (fun h => h ▸ hv) (hm kf)

theorem u32cast_eq {i : Int} (h0 : 0 ≤ i) (h1 : i < 2 ^ 32) : (u32cast i : Int) = i := by
  unfold u32cast
  rw [Int.emod_eq_of_lt h0 (by exact_mod_cast h1)]
  exact Int.toNat_of_nonneg h0


/-- Effect of the completion path: the invariant survives, `packets_received`
and the five per-datagram counters are untouched, and `last_delivered_seq`
moves exactly on emission, to a value above its old one. -/
theorem completeFrame_cases (st : RecvState) (stats2 : ReceiverStats)
    (pending2 : List (Nat × PendingFrame)) (active1 : Option (List Byte))
    (route1 : UdpLanFeedbackRoute) (transit : Int) (packet : UdpDatagram)
    (hlo : -1 ≤ st.last_delivered_seq) (hhi : st.last_delivered_seq < 2 ^ 32)
    (hsort : List.Pairwise (fun a b => a.1 < b.1) pending2)
    (hmem : ∀ kf ∈ pending2, kf.2.seq = kf.1 ∧ kf.2.seq < 2 ^ 32)
    (hlate : ¬ (0 ≤ st.last_delivered_seq ∧ packet.seq ≤ u32cast st.last_delivered_seq)) :
    ∀ res, completeFrame st stats2 pending2 active1 route1 transit packet = res →
      RecvInv res.1 ∧
      res.1.stats.packets_received = stats2.packets_received ∧
      fiveSum res.1.stats = fiveSum stats2 ∧
      (res.2 = none → res.1.last_delivered_seq = st.last_delivered_seq) ∧
      (∀ e, res.2 = some e →
        st.last_delivered_seq < (e.seq : Int) ∧
        res.1.last_delivered_seq = (e.seq : Int)) := by
  intro res hr
  unfold completeFrame at hr
  split at hr
  case h_1 heq =>
    subst hr
    exact ⟨⟨⟨hlo, hhi⟩, hsort, hmem⟩, rfl, rfl, fun _ => rfl, by intro e he; simp at he⟩
  case h_2 frame heq =>
    have hfseq : frame.seq = packet.seq := (hmem _ (pendingLookup_mem heq)).1
    have hflt : frame.seq < 2 ^ 32 := (hmem _ (pendingLookup_mem heq)).2
    have hsort3 : List.Pairwise (fun a b => a.1 < b.1) (pendingErase pending2 packet.seq) :=
      List.Pairwise.sublist (pendingErase_sublist pending2 packet.seq) hsort
    have hmem3 : ∀ kf ∈ pendingErase pending2 packet.seq, kf.2.seq = kf.1 ∧ kf.2.seq < 2 ^ 32 :=
      fun kf hkf => hmem _ ((pendingErase_sublist pending2 packet.seq).subset hkf)
    have hflt32 : frame.seq < 2 ^ 32 := hflt
    split at hr
    case isTrue hc =>
      exact absurd ⟨hc.2, by omega⟩ hlate
    case isFalse hc =>
      have hlt : st.last_delivered_seq < (frame.seq : Int) := by
        rcases lt_or_le st.last_delivered_seq 0 with h0 | h0
        · have : (0 : Int) ≤ (frame.seq : Int) := Int.natCast_nonneg _
          omega
        · have hnn : ¬ packet.seq ≤ u32cast st.last_delivered_seq := fun hx => hlate ⟨h0, hx⟩
          have h2 : ((u32cast st.last_delivered_seq : Nat) : Int) < (packet.seq : Int) := by
            exact_mod_cast Nat.lt_of_not_le hnn
          rw [u32cast_eq h0 hhi] at h2
          omega
      have hlo2 : (-1 : Int) ≤ (frame.seq : Int) :=
        le_trans (by norm_num) (Int.natCast_nonneg _)
      have hhi2 : ((frame.seq : Nat) : Int) < 2 ^ 32 := by exact_mod_cast hflt
      have hsortK : List.Pairwise (fun a b => a.1 < b.1)
          (List.filter (fun kf => decide (¬ kf.1 < frame.seq)) (pendingErase pending2 packet.seq)) :=
        List.Pairwise.filter _ hsort3
      have hmemK : ∀ kf ∈ List.filter (fun kf => decide (¬ kf.1 < frame.seq))
          (pendingErase pending2 packet.seq), kf.2.seq = kf.1 ∧ kf.2.seq < 2 ^ 32 :=
        fun kf hkf => hmem3 _ (List.mem_of_mem_filter hkf)
      dsimp only at hr
      by_cases hgap : 0 ≤ st.last_delivered_seq ∧
          (u32cast st.last_delivered_seq + 1) % 2 ^ 32 < frame.seq
      · rw [if_pos hgap] at hr
        by_cases hasm : 0 < (assemblePayload frame.chunks).2
        · rw [if_pos hasm] at hr
          subst hr
          exact ⟨⟨⟨hlo, hhi⟩, hsortK, hmemK⟩, rfl, rfl, fun _ => rfl,
            fun e he => absurd he (by simp)⟩
        · rw [if_neg hasm] at hr
          subst hr
          refine ⟨⟨⟨hlo2, hhi2⟩, hsortK, hmemK⟩, rfl, rfl,
            fun h => Option.noConfusion h, fun e he => ?_⟩
          cases Option.some.inj he
          exact ⟨hlt, rfl⟩
      · rw [if_neg hgap] at hr
        by_cases hasm : 0 < (assemblePayload frame.chunks).2
        · rw [if_pos hasm] at hr
          subst hr
          exact ⟨⟨⟨hlo, hhi⟩, hsort3, hmem3⟩, rfl, rfl, fun _ => rfl,
            fun e he => absurd he (by simp)⟩
        · rw [if_neg hasm] at hr
          subst hr
          refine ⟨⟨⟨hlo2, hhi2⟩, hsort3, hmem3⟩, rfl, rfl,
            fun h => Option.noConfusion h, fun e he => ?_⟩
          cases Option.some.inj he
          exact ⟨hlt, rfl⟩

theorem getD_replicate_none (n i : Nat) :
    (List.replicate n (none : Option (List Byte))).getD i none = none := by
  induction n generalizing i with
  | zero => simp [List.getD]
  | succ n ih =>
    cases i with
    | zero => simp
    | succ i => simp [ih i]

/-- Effect of chunk assembly: the invariant survives, `packets_received` is
untouched, exactly one of the five per-datagram counters goes up by one
(invalid, duplicate or accepted), and `last_delivered_seq` moves exactly on
emission, to a value above its old one. -/
theorem assembleChunk_cases (st : RecvState) (stats1 : ReceiverStats)
    (active1 : Option (List Byte)) (route1 : UdpLanFeedbackRoute)
    (transit : Int) (packet : UdpDatagram) (now_ms : Nat)
    (hlo : -1 ≤ st.last_delivered_seq) (hhi : st.last_delivered_seq < 2 ^ 32)
    (hsort : List.Pairwise (fun a b => a.1 < b.1) st.pending)
    (hmem : ∀ kf ∈ st.pending, kf.2.seq = kf.1 ∧ kf.2.seq < 2 ^ 32)
    (hlate : ¬ (0 ≤ st.last_delivered_seq ∧ packet.seq ≤ u32cast st.last_delivered_seq))
    (hpseq : packet.seq < 2 ^ 32) :
    ∀ res, assembleChunk st stats1 active1 route1 transit packet now_ms = res →
      RecvInv res.1 ∧
      res.1.stats.packets_received = stats1.packets_received ∧
      fiveSum res.1.stats = fiveSum stats1 + 1 ∧
      (res.2 = none → res.1.last_delivered_seq = st.last_delivered_seq) ∧
      (∀ e, res.2 = some e →
        st.last_delivered_seq < (e.seq : Int) ∧
        res.1.last_delivered_seq = (e.seq : Int)) := by
  intro res hr
  unfold assembleChunk at hr
  have hentry : ∀ e, pendingLookup st.pending packet.seq = some e →
      e.seq = packet.seq ∧ e.seq < 2 ^ 32 :=
    fun e he => hmem _ (pendingLookup_mem he)
  cases hl : pendingLookup st.pending packet.seq with
  | none =>
    rw [hl] at hr
    simp only [Option.getD_none] at hr
    by_cases hmis : packet.total_chunks ≠ packet.total_chunks
    · exact absurd rfl hmis
    · rw [if_neg hmis] at hr
      rw [if_neg (by simp [getD_replicate_none])] at hr
      have hsort2 : List.Pairwise (fun a b => a.1 < b.1)
          (pendingInsert (pendingInsert st.pending packet.seq
            { seq := packet.seq, timestamp_us := packet.timestamp_us, flags := packet.flags,
              total_chunks := packet.total_chunks,
              chunks := List.replicate packet.total_chunks none,
              received_chunks := 0, first_arrival := now_ms }) packet.seq
            { seq := packet.seq, timestamp_us := packet.timestamp_us, flags := packet.flags,
              total_chunks := packet.total_chunks,
              chunks := (List.replicate packet.total_chunks none).set packet.chunk_index
                (some packet.payload),
              received_chunks := 0 + 1, first_arrival := now_ms }) :=
        pendingInsert_sorted (pendingInsert_sorted hsort)
      have hmem2 : ∀ kf ∈ pendingInsert (pendingInsert st.pending packet.seq
          { seq := packet.seq, timestamp_us := packet.timestamp_us, flags := packet.flags,
            total_chunks := packet.total_chunks,
            chunks := List.replicate packet.total_chunks none,
            received_chunks := 0, first_arrival := now_ms }) packet.seq
          { seq := packet.seq, timestamp_us := packet.timestamp_us, flags := packet.flags,
            total_chunks := packet.total_chunks,
            chunks := (List.replicate packet.total_chunks none).set packet.chunk_index
              (some packet.payload),
            received_chunks := 0 + 1, first_arrival := now_ms },
          kf.2.seq = kf.1 ∧ kf.2.seq < 2 ^ 32 :=
        forall_mem_pendingInsert (forall_mem_pendingInsert hmem ⟨rfl, hpseq⟩) ⟨rfl, hpseq⟩
      by_cases hone : 0 + 1 = packet.total_chunks
      · rw [if_pos hone] at hr
        have hc := completeFrame_cases st _ _ active1 route1 transit packet
          hlo hhi hsort2 hmem2 hlate res hr
        exact ⟨hc.1, hc.2.1, by rw [hc.2.2.1]; simp [fiveSum]; omega, hc.2.2.2.1, hc.2.2.2.2⟩
      · rw [if_neg hone] at hr
        subst hr
        exact ⟨⟨⟨hlo, hhi⟩, hsort2, hmem2⟩, rfl, by simp [fiveSum]; omega, fun _ => rfl,
          fun e he => absurd he (by simp)⟩
  | some e0 =>
    rw [hl] at hr
    simp only [Option.getD_some] at hr
    obtain ⟨he0seq, he0lt⟩ := hentry e0 hl
    by_cases hmis : e0.total_chunks ≠ packet.total_chunks
    · rw [if_pos hmis] at hr
      subst hr
      refine ⟨⟨⟨hlo, hhi⟩, ?_, ?_⟩, rfl, by simp [fiveSum]; omega, fun _ => rfl,
        fun e he => absurd he (by simp)⟩
      · exact List.Pairwise.sublist (pendingErase_sublist _ _) (pendingInsert_sorted hsort)
      · exact fun kf hkf => forall_mem_pendingInsert hmem ⟨he0seq, he0lt⟩ _
          ((pendingErase_sublist _ _).subset hkf)
    · rw [if_neg hmis] at hr
      by_cases hdup : ((e0.chunks.getD packet.chunk_index none).isSome = true)
      · rw [if_pos hdup] at hr
        subst hr
        exact ⟨⟨⟨hlo, hhi⟩, pendingInsert_sorted hsort,
          forall_mem_pendingInsert hmem ⟨he0seq, he0lt⟩⟩, rfl, by simp [fiveSum]; omega,
          fun _ => rfl, fun e he => absurd he (by simp)⟩
      · rw [if_neg hdup] at hr
        have hsort2 : List.Pairwise (fun a b => a.1 < b.1)
            (pendingInsert (pendingInsert st.pending packet.seq e0) packet.seq
              { e0 with
                chunks := e0.chunks.set packet.chunk_index (some packet.payload),
                received_chunks := e0.received_chunks + 1 }) :=
          pendingInsert_sorted (pendingInsert_sorted hsort)
        have hmem2 : ∀ kf ∈ pendingInsert (pendingInsert st.pending packet.seq e0) packet.seq
            { e0 with
              chunks := e0.chunks.set packet.chunk_index (some packet.payload),
              received_chunks := e0.received_chunks + 1 },
            kf.2.seq = kf.1 ∧ kf.2.seq < 2 ^ 32 :=
          forall_mem_pendingInsert (forall_mem_pendingInsert hmem ⟨he0seq, he0lt⟩)
            ⟨he0seq, he0lt⟩
        by_cases hone : e0.received_chunks + 1 = e0.total_chunks
        · rw [if_pos hone] at hr
          have hc := completeFrame_cases st _ _ active1 route1 transit packet
            hlo hhi hsort2 hmem2 hlate res hr
          exact ⟨hc.1, hc.2.1, by rw [hc.2.2.1]; simp [fiveSum]; omega, hc.2.2.2.1, hc.2.2.2.2⟩
        · rw [if_neg hone] at hr
          subst hr
          exact ⟨⟨⟨hlo, hhi⟩, hsort2, hmem2⟩, rfl, by simp [fiveSum]; omega, fun _ => rfl,
            fun e he => absurd he (by simp)⟩
/-- Effect of the per-packet path (after parse): invariant preserved,
`packets_received` untouched, exactly one of the five counters up by one,
`last_delivered_seq` moves only on emission and only upward. -/
theorem processPacket_cases (options : NormalizedOptions) (st : RecvState)
    (stats0 : ReceiverStats) (packet : UdpDatagram) (remote : Nat)
    (now_ms : Nat) (arrival_us : Int)
    (hlo : -1 ≤ st.last_delivered_seq) (hhi : st.last_delivered_seq < 2 ^ 32)
    (hsort : List.Pairwise (fun a b => a.1 < b.1) st.pending)
    (hmem : ∀ kf ∈ st.pending, kf.2.seq = kf.1 ∧ kf.2.seq < 2 ^ 32)
    (hpseq : packet.seq < 2 ^ 32) :
    ∀ res, processPacket options st stats0 packet remote now_ms arrival_us = res →
      RecvInv res.1 ∧
      res.1.stats.packets_received = stats0.packets_received ∧
      fiveSum res.1.stats = fiveSum stats0 + 1 ∧
      (res.2 = none → res.1.last_delivered_seq = st.last_delivered_seq) ∧
      (∀ e, res.2 = some e →
        st.last_delivered_seq < (e.seq : Int) ∧
        res.1.last_delivered_seq = (e.seq : Int)) := by
  intro res hr
  unfold processPacket at hr
  by_cases h1 : options.expected_stream_id.any
      (fun expected => decide (expected ≠ packet.stream_id)) = true
  · rw [if_pos h1] at hr
    subst hr
    exact ⟨⟨⟨hlo, hhi⟩, hsort, hmem⟩, rfl, by simp [fiveSum]; omega, fun _ => rfl,
      fun e he => absurd he (by simp)⟩
  · rw [if_neg h1] at hr
    by_cases h2 : st.active_stream_id.any
        (fun id => decide (id ≠ packet.stream_id)) = true
    · rw [if_pos h2] at hr
      subst hr
      exact ⟨⟨⟨hlo, hhi⟩, hsort, hmem⟩, rfl, by simp [fiveSum]; omega, fun _ => rfl,
        fun e he => absurd he (by simp)⟩
    · rw [if_neg h2] at hr
      dsimp only at hr
      by_cases hlate : 0 ≤ st.last_delivered_seq ∧
          packet.seq ≤ u32cast st.last_delivered_seq
      · rw [if_pos hlate] at hr
        subst hr
        exact ⟨⟨⟨hlo, hhi⟩, hsort, hmem⟩, rfl, by simp [fiveSum]; omega, fun _ => rfl,
          fun e he => absurd he (by simp)⟩
      · rw [if_neg hlate] at hr
        have hc := assembleChunk_cases st _ _ _ _ packet now_ms
          hlo hhi hsort hmem hlate hpseq res hr
        exact ⟨hc.1, hc.2.1, by rw [hc.2.2.1]; simp [fiveSum], hc.2.2.2.1, hc.2.2.2.2⟩

/-- Per-datagram effect of the receive branch: the invariant is preserved,
`packets_received` goes up by one, exactly one of the five per-datagram
counter families goes up by one, and `last_delivered_seq` moves exactly on
emission, to a value above its old one. -/
theorem processDatagram_cases (options : NormalizedOptions) (st : RecvState)
    (buf : List Byte) (remote : Nat) (now_ms : Nat) (arrival_us : Int)
    (hinv : RecvInv st) :
    ∀ res, processDatagram options st buf remote now_ms arrival_us = res →
      RecvInv res.1 ∧
      res.1.stats.packets_received = st.stats.packets_received + 1 ∧
      fiveSum res.1.stats = fiveSum st.stats + 1 ∧
      (res.2 = none → res.1.last_delivered_seq = st.last_delivered_seq) ∧
      (∀ e, res.2 = some e →
        st.last_delivered_seq < (e.seq : Int) ∧
        res.1.last_delivered_seq = (e.seq : Int)) := by
  obtain ⟨⟨hlo, hhi⟩, hsort, hmem⟩ := hinv
  intro res hr
  unfold processDatagram at hr
  cases hp : parse_udp_datagram buf with
  | none =>
    simp only [hp] at hr
    subst hr
    exact ⟨⟨⟨hlo, hhi⟩, hsort, hmem⟩, rfl, by simp [fiveSum]; omega, fun _ => rfl,
      fun e he => absurd he (by simp)⟩
  | some packet =>
    simp only [hp] at hr
    have hc := processPacket_cases options st _ packet remote now_ms arrival_us
      hlo hhi hsort hmem (parse_seq_lt hp) res hr
    exact ⟨hc.1, hc.2.1, by rw [hc.2.2.1]; simp [fiveSum], hc.2.2.2.1, hc.2.2.2.2⟩

/-- Timed eviction touches only `missing_chunks`/`frames_dropped_timeout`
and shrinks `pending`, preserving the invariant. -/
theorem timedEvict_cases (options : NormalizedOptions) (st : RecvState) (now_ms : Nat)
    (hinv : RecvInv st) :
    RecvInv (timedEvict options st now_ms) ∧
    (timedEvict options st now_ms).stats.packets_received = st.stats.packets_received ∧
    fiveSum (timedEvict options st now_ms).stats = fiveSum st.stats ∧
    (timedEvict options st now_ms).last_delivered_seq = st.last_delivered_seq := by
  obtain ⟨⟨hlo, hhi⟩, hsort, hmem⟩ := hinv
  refine ⟨⟨⟨hlo, hhi⟩, ?_, ?_⟩, rfl, rfl, rfl⟩
  · exact List.Pairwise.filter _ hsort
  · exact fun kf hkf => hmem _ (List.mem_of_mem_filter hkf)

/-- Closed form of the queue-eviction loop: it drops exactly the
`length - maxPending` lowest-key entries (the front of the sorted list),
tallying their missing chunks and one `frames_dropped_queue` each. -/
theorem queueEvictGo_spec (maxPending : Nat) :
    ∀ (l : List (Nat × PendingFrame)) (stats : ReceiverStats),
      queueEvictGo maxPending l stats =
        (l.drop (l.length - maxPending),
         { stats with
            missing_chunks :=
              stats.missing_chunks + staleMissing (l.take (l.length - maxPending)),
            frames_dropped_queue :=
              stats.frames_dropped_queue + (l.length - maxPending) }) := by
  intro l
  induction l with
  | nil => intro stats; simp [queueEvictGo, staleMissing]
  | cons kf rest ih =>
    intro stats
    obtain ⟨k, f⟩ := kf
    unfold queueEvictGo
    by_cases h : maxPending < ((k, f) :: rest).length
    · rw [if_pos h]
      rw [ih]
      have hm : ((k, f) :: rest).length - maxPending = (rest.length - maxPending) + 1 := by
        simp at h ⊢
        omega
      rw [hm]
      simp only [List.drop_succ_cons, List.take_succ_cons, Prod.mk.injEq]
      refine ⟨trivial, ?_⟩
      simp only [staleMissing, List.map_cons, List.sum_cons]
      congr 1 <;> omega
    · rw [if_neg h]
      have hm : ((k, f) :: rest).length - maxPending = 0 := by
        simp at h ⊢
        omega
      rw [hm]
      simp [staleMissing]

theorem queueEvict_cases (options : NormalizedOptions) (st : RecvState) (hinv : RecvInv st) :
    RecvInv (queueEvict options st) ∧
    (queueEvict options st).stats.packets_received = st.stats.packets_received ∧
    fiveSum (queueEvict options st).stats = fiveSum st.stats ∧
    (queueEvict options st).last_delivered_seq = st.last_delivered_seq ∧
    (queueEvict options st).pending.length ≤ options.max_pending_frames := by
  obtain ⟨⟨hlo, hhi⟩, hsort, hmem⟩ := hinv
  unfold queueEvict
  rw [queueEvictGo_spec]
  refine ⟨⟨⟨hlo, hhi⟩, ?_, ?_⟩, rfl, rfl, rfl, ?_⟩
  · exact List.Pairwise.sublist (List.drop_sublist _ _) hsort
  · exact fun kf hkf => hmem _ ((List.drop_sublist _ _).subset hkf)
  · simp only [List.length_drop]
    omega

/-- One loop pass: invariant preserved, pending bounded, counters move by
exactly the received-datagram indicator, `last_delivered_seq` moves exactly
on emission and only upward. -/
theorem receiverStep_cases (options : NormalizedOptions) (st : RecvState) (inp : LoopInput)
    (hinv : RecvInv st) :
    ∀ res, receiverStep options st inp = res →
      RecvInv res.1 ∧
      res.1.pending.length ≤ options.max_pending_frames ∧
      res.1.stats.packets_received
        = st.stats.packets_received + (if inp.recv.isSome then 1 else 0) ∧
      fiveSum res.1.stats = fiveSum st.stats + (if inp.recv.isSome then 1 else 0) ∧
      (res.2 = none → res.1.last_delivered_seq = st.last_delivered_seq) ∧
      (∀ e, res.2 = some e →
        st.last_delivered_seq < (e.seq : Int) ∧
        res.1.last_delivered_seq = (e.seq : Int)) := by
  intro res hr
  unfold receiverStep at hr
  cases hrecv : inp.recv with
  | none =>
    rw [hrecv] at hr
    subst hr
    have ht := timedEvict_cases options st inp.now_ms hinv
    have hq := queueEvict_cases options _ ht.1
    refine ⟨hq.1, hq.2.2.2.2, ?_, ?_, ?_, fun e he => absurd he (by simp)⟩
    · rw [hq.2.1, ht.2.1]; simp
    · rw [hq.2.2.1, ht.2.2.1]; simp
    · intro _
      rw [hq.2.2.2.1, ht.2.2.2]
  | some pair =>
    obtain ⟨buf, remote⟩ := pair
    rw [hrecv] at hr
    have hp := processDatagram_cases options st buf remote inp.now_ms inp.arrival_us hinv
      (processDatagram options st buf remote inp.now_ms inp.arrival_us) rfl
    subst hr
    have ht := timedEvict_cases options _ inp.now_ms hp.1
    have hq := queueEvict_cases options _ ht.1
    refine ⟨hq.1, hq.2.2.2.2, ?_, ?_, ?_, ?_⟩
    · rw [hq.2.1, ht.2.1, hp.2.1]; simp
    · rw [hq.2.2.1, ht.2.2.1, hp.2.2.1]; simp
    · intro h
      rw [hq.2.2.2.1, ht.2.2.2]
      exact hp.2.2.2.1 h
    · intro e he
      have h2 := hp.2.2.2.2 e he
      exact ⟨h2.1, by rw [hq.2.2.2.1, ht.2.2.2]; exact h2.2⟩

/-- The received-datagram count of an iteration trace. -/
def countRecv (inputs : List LoopInput) : Nat :=
  (inputs.filter (fun i => i.recv.isSome)).length

/-- Trace induction for the receiver loop: invariant, strict ordering and a
lower bound on emitted sequence numbers, and the per-datagram counter
accounting. -/
theorem run_loop_aux (options : NormalizedOptions) :
    ∀ (inputs : List LoopInput) (st : RecvState), RecvInv st →
      RecvInv (run_udp_receiver_loop options st inputs).1 ∧
      List.Pairwise (fun a b => a.seq < b.seq) (run_udp_receiver_loop options st inputs).2 ∧
      (∀ e ∈ (run_udp_receiver_loop options st inputs).2,
        st.last_delivered_seq < (e.seq : Int)) ∧
      (run_udp_receiver_loop options st inputs).1.stats.packets_received
        = st.stats.packets_received + countRecv inputs ∧
      fiveSum (run_udp_receiver_loop options st inputs).1.stats
        = fiveSum st.stats + countRecv inputs ∧
      st.last_delivered_seq ≤ (run_udp_receiver_loop options st inputs).1.last_delivered_seq := by
  intro inputs
  induction inputs with
  | nil =>
    intro st hinv
    refine ⟨hinv, by simp [run_udp_receiver_loop], by simp [run_udp_receiver_loop], ?_, ?_, ?_⟩
      <;> simp [run_udp_receiver_loop, countRecv]
  | cons inp rest ih =>
    intro st hinv
    have hs := receiverStep_cases options st inp hinv (receiverStep options st inp) rfl
    have hr := ih (receiverStep options st inp).1 hs.1
    have hcount : countRecv (inp :: rest)
        = (if inp.recv.isSome then 1 else 0) + countRecv rest := by
      simp only [countRecv, List.filter_cons]
      split
      · simp
        omega
      · simp
    have hrun : run_udp_receiver_loop options st (inp :: rest)
        = ((run_udp_receiver_loop options (receiverStep options st inp).1 rest).1,
           (receiverStep options st inp).2.toList ++
             (run_udp_receiver_loop options (receiverStep options st inp).1 rest).2) := rfl
    rw [hrun]
    dsimp only
    refine ⟨hr.1, ?_, ?_, ?_, ?_, ?_⟩
    · cases hev : (receiverStep options st inp).2 with
      | none => simpa using hr.2.1
      | some e0 =>
        have he0 := hs.2.2.2.2.2 e0 hev
        simp only [hev, Option.toList_some, List.cons_append, List.nil_append]
        refine List.Pairwise.cons ?_ hr.2.1
        intro e he
        have := hr.2.2.1 e he
        rw [he0.2] at this
        exact_mod_cast this
    · cases hev : (receiverStep options st inp).2 with
      | none =>
        intro e he
        simp only [Option.toList_none, List.nil_append] at he
        have := hr.2.2.1 e he
        rw [hs.2.2.2.2.1 hev] at this
        exact this
      | some e0 =>
        have he0 := hs.2.2.2.2.2 e0 hev
        intro e he
        simp only [Option.toList_some, List.cons_append, List.nil_append] at he
        rcases List.mem_cons.mp he with he | he
        · subst he
          exact he0.1
        · have := hr.2.2.1 e he
          rw [he0.2] at this
          exact lt_trans he0.1 this
    · rw [hr.2.2.2.1, hs.2.2.1, hcount]
      omega
    · rw [hr.2.2.2.2.1, hs.2.2.2.1, hcount]
      omega
    · cases hev : (receiverStep options st inp).2 with
      | none =>
        have h1 := hs.2.2.2.2.1 hev
        have h2 := hr.2.2.2.2.2
        omega
      | some e0 =>
        have he0 := hs.2.2.2.2.2 e0 hev
        have h2 := hr.2.2.2.2.2
        have h1 := he0.1
        rw [he0.2] at h2
        omega

/-- C1: Across any receiver-loop trace, the `seq` values of the emitted
`udp-lan-frame` events are strictly increasing: once a frame with sequence
`S` is emitted, every later frame event has sequence greater than `S` (late
datagrams with `seq ≤` the last delivered one are dropped at lines 440-443,
and a pending entry at or below the delivered sequence can never complete,
by the re-check at lines 478-481). -/
theorem udp_frame_seq_strict_mono (options : NormalizedOptions) (inputs : List LoopInput) :
    List.Pairwise (fun a b => a.seq < b.seq)
      (run_udp_receiver_loop options initialRecvState inputs).2 :=
  (run_loop_aux options inputs initialRecvState recvInv_initial).2.1

/-- C3 (amended): every received datagram is accounted for in exactly one
counter family: over any trace from the initial state,
`packets_received = packets_accepted + packets_invalid + packets_duplicate +
packets_stream_mismatch + frames_dropped_late`.  Datagrams sitting in
gap-evicted pending frames were already counted in `packets_accepted`, so
the specification's extra gap-evicted term does not appear (its presence is
refuted by the counterexample). -/
theorem udp_counter_accounting (options : NormalizedOptions) (inputs : List LoopInput) :
    (run_udp_receiver_loop options initialRecvState inputs).1.stats.packets_received
      = (run_udp_receiver_loop options initialRecvState inputs).1.stats.packets_accepted
      + (run_udp_receiver_loop options initialRecvState inputs).1.stats.packets_invalid
      + (run_udp_receiver_loop options initialRecvState inputs).1.stats.packets_duplicate
      + (run_udp_receiver_loop options initialRecvState inputs).1.stats.packets_stream_mismatch
      + (run_udp_receiver_loop options initialRecvState inputs).1.stats.frames_dropped_late := by
  have h := run_loop_aux options inputs initialRecvState recvInv_initial
  have h1 := h.2.2.2.1
  have h2 := h.2.2.2.2.1
  rw [show initialRecvState.stats.packets_received = 0 from rfl] at h1
  rw [show fiveSum initialRecvState.stats = 0 from rfl] at h2
  simp only [fiveSum] at h2
  omega

/-- 38-byte header-only test datagram: stream id `00…00`, empty payload,
given low bytes of `seq`, `chunk_index` and `total_chunks`. -/
def testDgram (seqLo chunkLo totalLo : Byte) : List Byte :=
  [0x4f, 0x44, 1, 0] ++ List.replicate 16 (0 : Byte) ++
    [0, 0, 0, seqLo] ++ List.replicate 8 (0 : Byte) ++ [0, chunkLo, 0, totalLo, 0, 0]

def cxOptions : NormalizedOptions :=
  { expected_stream_id := none, max_frame_age_ms := 40, max_pending_frames := 96 }

/-- Complete frame 1; receive chunk 0 of the 2-chunk frame 2; complete
frame 4, whose gap evicts the pending frame 2 (1 accepted datagram). -/
def cxInputs : List LoopInput :=
  [ { recv := some (testDgram 1 0 1, 5), now_ms := 0, arrival_us := 0 },
    { recv := some (testDgram 2 0 2, 5), now_ms := 0, arrival_us := 0 },
    { recv := some (testDgram 4 0 1, 5), now_ms := 0, arrival_us := 0 } ]

/-- C3 counterexample: after the trace above, one pending frame was
gap-evicted holding one accepted datagram, and the specification's equation
`packets_received = packets_accepted + packets_invalid + packets_duplicate +
packets_stream_mismatch + frames_dropped_late + (gap-evicted datagrams)`
fails: `3 ≠ 3 + 0 + 0 + 0 + 0 + 1`. -/
theorem udp_counter_accounting_cx :
    (run_udp_receiver_loop cxOptions initialRecvState cxInputs).1.stats.frames_dropped_gap = 1 ∧
    (run_udp_receiver_loop cxOptions initialRecvState cxInputs).1.stats.gap_evicted_packets = 1 ∧
    ¬ ((run_udp_receiver_loop cxOptions initialRecvState cxInputs).1.stats.packets_received
      = (run_udp_receiver_loop cxOptions initialRecvState cxInputs).1.stats.packets_accepted
      + (run_udp_receiver_loop cxOptions initialRecvState cxInputs).1.stats.packets_invalid
      + (run_udp_receiver_loop cxOptions initialRecvState cxInputs).1.stats.packets_duplicate
      + (run_udp_receiver_loop cxOptions initialRecvState cxInputs).1.stats.packets_stream_mismatch
      + (run_udp_receiver_loop cxOptions initialRecvState cxInputs).1.stats.frames_dropped_late
      + (run_udp_receiver_loop cxOptions initialRecvState cxInputs).1.stats.gap_evicted_packets) := by
  decide

theorem queueEvict_length_le (options : NormalizedOptions) (st : RecvState) :
    (queueEvict options st).pending.length ≤ options.max_pending_frames := by
  unfold queueEvict
  rw [queueEvictGo_spec]
  simp only [List.length_drop]
  omega

/-- C8: after every eviction pass (timed, then queue) the pending map holds
at most `maxPendingFrames` entries; the queue-eviction loop removes exactly
the over-capacity entries with the lowest keys, adding each one's missing
chunk count to `missing_chunks` and one `frames_dropped_queue` per entry. -/
theorem pending_queue_eviction_spec :
    (∀ (options : NormalizedOptions) (st : RecvState) (inp : LoopInput),
      (receiverStep options st inp).1.pending.length ≤ options.max_pending_frames) ∧
    (∀ (maxPending : Nat) (l : List (Nat × PendingFrame)) (stats : ReceiverStats),
      queueEvictGo maxPending l stats =
        (l.drop (l.length - maxPending),
         { stats with
            missing_chunks :=
              stats.missing_chunks + staleMissing (l.take (l.length - maxPending)),
            frames_dropped_queue :=
              stats.frames_dropped_queue + (l.length - maxPending) })) ∧
    (∀ (maxPending : Nat) (l : List (Nat × PendingFrame)),
      List.Pairwise (fun a b => a.1 < b.1) l →
      ∀ a ∈ l.take (l.length - maxPending), ∀ b ∈ l.drop (l.length - maxPending), a.1 < b.1) := by
  refine ⟨?_, queueEvictGo_spec, ?_⟩
  · intro options st inp
    exact queueEvict_length_le options _
  · intro maxPending l hsort a ha b hb
    have h : (l.take (l.length - maxPending) ++ l.drop (l.length - maxPending)).Pairwise
        (fun a b => a.1 < b.1) := by
      rw [List.take_append_drop]
      exact hsort
    exact (List.pairwise_append.mp h).2.2 a ha b hb

def cxFrame1 : PendingFrame :=
  { seq := 1, timestamp_us := 0, flags := 0, total_chunks := 2,
    chunks := [none, none], received_chunks := 0, first_arrival := 0 }

def cxFrame2 : PendingFrame :=
  { seq := 2, timestamp_us := 0, flags := 0, total_chunks := 3,
    chunks := [none, none, none], received_chunks := 1, first_arrival := 0 }

theorem pending_queue_eviction_spec_witness : (1 : Nat) < 2 :=
  pending_queue_eviction_spec.2.2 1 [(1, cxFrame1), (2, cxFrame2)] (by decide)
    (1, cxFrame1) (by decide) (2, cxFrame2) (by decide)

/-- C2: `parse_udp_datagram` returns `none` exactly when the length is
below 38, the magic differs from 0x4F44, the version differs from 1,
`total_chunks` is zero, `chunk_index ≥ total_chunks`, or the length is not
`38 + payload_length`; otherwise the returned datagram carries the
big-endian decodings at the fixed header offsets and the bytes from offset
38 as payload. -/
theorem parse_udp_datagram_spec (buf : List Byte) :
    (parse_udp_datagram buf = none ↔
      buf.length < 38 ∨
      beBytes [byteAt buf 0, byteAt buf 1] ≠ 0x4f44 ∨
      (byteAt buf 2).val ≠ 1 ∨
      beBytes [byteAt buf 34, byteAt buf 35] = 0 ∨
      beBytes [byteAt buf 34, byteAt buf 35] ≤ beBytes [byteAt buf 32, byteAt buf 33] ∨
      buf.length ≠ 38 + beBytes [byteAt buf 36, byteAt buf 37]) ∧
    (∀ d, parse_udp_datagram buf = some d →
      d.stream_id = (buf.drop 4).take 16 ∧
      d.seq = beBytes [byteAt buf 20, byteAt buf 21, byteAt buf 22, byteAt buf 23] ∧
      d.timestamp_us = beBytes [byteAt buf 24, byteAt buf 25, byteAt buf 26, byteAt buf 27,
        byteAt buf 28, byteAt buf 29, byteAt buf 30, byteAt buf 31] ∧
      d.flags = byteAt buf 3 ∧
      d.chunk_index = beBytes [byteAt buf 32, byteAt buf 33] ∧
      d.total_chunks = beBytes [byteAt buf 34, byteAt buf 35] ∧
      d.payload = buf.drop 38) := by
  constructor
  · simp only [parse_udp_datagram, UDP_HEADER_SIZE, UDP_MAGIC, UDP_VERSION]
    split
    · next h1 => exact iff_of_true rfl (Or.inl h1)
    · next h1 =>
      split
      · next h2 =>
        exact iff_of_true rfl
          (Or.inr (h2.elim (fun h => Or.inl h) (fun h => Or.inr (Or.inl h))))
      · next h2 =>
        split
        · next h3 =>
          exact iff_of_true rfl (Or.inr (Or.inr (Or.inr (Or.inl h3))))
        · next h3 =>
          split
          · next h4 =>
            exact iff_of_true rfl (Or.inr (Or.inr (Or.inr (Or.inr (Or.inl h4)))))
          · next h4 =>
            split
            · next h5 =>
              exact iff_of_true rfl (Or.inr (Or.inr (Or.inr (Or.inr (Or.inr h5)))))
            · next h5 =>
              refine iff_of_false (by simp) ?_
              push_neg at h2 ⊢
              push_neg at h5
              exact ⟨by omega, h2.1, h2.2, h3, by omega, by omega⟩
  · intro d hd
    simp only [parse_udp_datagram] at hd
    split at hd
    · exact absurd hd (by simp)
    · split at hd
      · exact absurd hd (by simp)
      · split at hd
        · exact absurd hd (by simp)
        · split at hd
          · exact absurd hd (by simp)
          · split at hd
            · exact absurd hd (by simp)
            · simp only [Option.some.injEq] at hd
              subst hd
              exact ⟨rfl, rfl, rfl, rfl, rfl, rfl, rfl⟩
/-- C2 witness input: a valid single-chunk datagram with sequence 7. -/
def sampleDgramBytes : List Byte := testDgram 7 0 1

def sampleDgram : UdpDatagram :=
  { stream_id := List.replicate 16 0, seq := 7, timestamp_us := 0, flags := 0,
    chunk_index := 0, total_chunks := 1, payload := [] }

theorem parse_udp_datagram_spec_witness :
    sampleDgram.payload = sampleDgramBytes.drop 38 :=
  ((parse_udp_datagram_spec sampleDgramBytes).2 sampleDgram (by decide)).2.2.2.2.2.2

/- ---------------------------------------------------------------------------
   Stream-id hex codec lemmas (C9).
--------------------------------------------------------------------------- -/

/-- ASCII uppercase map, used to state case-insensitivity. -/
def upperAscii (c : Char) : Char :=
  if 'a' ≤ c ∧ c ≤ 'z' then Char.ofNat (c.toNat - 32) else c

theorem hexDigitChar_facts (n : Nat) (h : n < 16) :
    hexDigitVal (hexDigitChar n) = some n ∧
    isAsciiWs (hexDigitChar n) = false ∧
    (hexDigitChar n = '-') = False ∧
    (hexDigitChar n = '+') = False ∧
    lowerAscii (hexDigitChar n) = hexDigitChar n ∧
    lowerAscii (upperAscii (hexDigitChar n)) = hexDigitChar n ∧
    isAsciiWs (upperAscii (hexDigitChar n)) = false ∧
    (upperAscii (hexDigitChar n) = '-') = False ∧
    (upperAscii (hexDigitChar n) = '+') = False := by
  interval_cases n <;> exact ⟨rfl, rfl, by simp [hexDigitChar, upperAscii, lowerAscii],
    by simp [hexDigitChar, upperAscii, lowerAscii], rfl, rfl, rfl,
    by simp [hexDigitChar, upperAscii, lowerAscii], by simp [hexDigitChar, upperAscii, lowerAscii]⟩

theorem dropWhile_all_false {p : Char → Bool} :
    ∀ {s : List Char}, (∀ c ∈ s, p c = false) → s.dropWhile p = s
  | [], _ => rfl
  | c :: rest, h => by
    simp [List.dropWhile_cons, h c (List.mem_cons_self c rest)]

theorem trimChars_of_no_ws {s : List Char} (h : ∀ c ∈ s, isAsciiWs c = false) :
    trimChars s = s := by
  unfold trimChars
  rw [dropWhile_all_false h,
      dropWhile_all_false (fun c hc => h c (List.mem_reverse.mp hc)),
      List.reverse_reverse]

theorem filter_all_true {p : Char → Bool} :
    ∀ {s : List Char}, (∀ c ∈ s, p c = true) → s.filter p = s
  | [], _ => rfl
  | c :: rest, h => by
    simp only [List.filter_cons, h c (List.mem_cons_self c rest), if_pos]
    exact congrArg (c :: ·) (filter_all_true fun x hx => h x (List.mem_cons_of_mem _ hx))

theorem map_self_of {f : Char → Char} :
    ∀ {s : List Char}, (∀ c ∈ s, f c = c) → s.map f = s
  | [], _ => rfl
  | c :: rest, h => by
    simp only [List.map_cons, h c (List.mem_cons_self c rest)]
    exact congrArg (c :: ·) (map_self_of fun x hx => h x (List.mem_cons_of_mem _ hx))

theorem mem_stream_id_to_hex {id : List Byte} {c : Char} (h : c ∈ stream_id_to_hex id) :
    ∃ n, n < 16 ∧ c = hexDigitChar n := by
  unfold stream_id_to_hex at h
  rw [List.mem_flatMap] at h
  obtain ⟨b, _, hc⟩ := h
  rcases List.mem_cons.mp hc with hc | hc
  · exact ⟨b.val / 16, by omega, hc⟩
  · rcases List.mem_cons.mp hc with hc | hc
    · exact ⟨b.val % 16, Nat.mod_lt _ (by norm_num), hc⟩
    · simp at hc

theorem stream_id_to_hex_length (id : List Byte) :
    (stream_id_to_hex id).length = 2 * id.length := by
  induction id with
  | nil => rfl
  | cons b rest ih =>
    simp only [stream_id_to_hex, List.flatMap_cons] at ih ⊢
    simp [ih]
    omega

theorem from_str_radix_hex_pair (b : Byte) :
    from_str_radix_u8_hex [hexDigitChar (b.val / 16), hexDigitChar (b.val % 16)] = some b := by
  have h1 := hexDigitChar_facts (b.val / 16) (by omega)
  have h2 := hexDigitChar_facts (b.val % 16) (Nat.mod_lt _ (by norm_num))
  unfold from_str_radix_u8_hex
  dsimp only
  rw [if_neg (by simp [h1.2.2.2.1])]
  unfold hexDigitsVal
  rw [h1.1]
  unfold hexDigitsVal
  rw [h2.1]
  have hb : b.val / 16 * 16 + b.val % 16 = b.val := by omega
  simp only [hb]
  rw [dif_pos b.isLt]

theorem parsePairs_to_hex : ∀ (id : List Byte) (i : Nat),
    parseStreamHexPairs (stream_id_to_hex id) i = .ok id := by
  intro id
  induction id with
  | nil => intro i; rfl
  | cons b rest ih =>
    intro i
    show parseStreamHexPairs
      (hexDigitChar (b.val / 16) :: hexDigitChar (b.val % 16) :: stream_id_to_hex rest) i
      = .ok (b :: rest)
    unfold parseStreamHexPairs
    rw [from_str_radix_hex_pair, ih (i + 1)]

/-- C9: `parse_stream_id_hex` inverts `stream_id_to_hex` on every 16-byte
stream id, accepts uppercase hex digits, is insensitive to dashes (on
whitespace-free input, stripping dashes first does not change the result),
and succeeds only when exactly 32 characters remain after normalization.
(The spec's stronger "32 hex digits" necessity fails: see the
counterexample, a leading `+` is accepted by the pair parser.) -/
theorem stream_id_hex_roundtrip :
    (∀ id : List Byte, id.length = 16 →
      parse_stream_id_hex (stream_id_to_hex id) = .ok id) ∧
    (∀ id : List Byte, id.length = 16 →
      parse_stream_id_hex ((stream_id_to_hex id).map upperAscii) = .ok id) ∧
    (∀ s : List Char, (∀ c ∈ s, isAsciiWs c = false) →
      parse_stream_id_hex s = parse_stream_id_hex (s.filter (fun c => c ≠ '-'))) ∧
    (∀ s out, parse_stream_id_hex s = .ok out →
      (((trimChars s).filter (fun c => c ≠ '-')).map lowerAscii).length = 32) := by
  have hchar : ∀ {id : List Byte} {c : Char}, c ∈ stream_id_to_hex id →
      ∃ n, n < 16 ∧ c = hexDigitChar n := fun hc => mem_stream_id_to_hex hc
  refine ⟨?_, ?_, ?_, ?_⟩
  · intro id hlen
    unfold parse_stream_id_hex
    have htrim : trimChars (stream_id_to_hex id) = stream_id_to_hex id :=
      trimChars_of_no_ws (fun c hc => by
        obtain ⟨n, hn, rfl⟩ := hchar hc
        exact (hexDigitChar_facts n hn).2.1)
    have hfilter : (stream_id_to_hex id).filter (fun c => c ≠ '-') = stream_id_to_hex id :=
      filter_all_true (fun c hc => by
        obtain ⟨n, hn, rfl⟩ := hchar hc
        simp [(hexDigitChar_facts n hn).2.2.1])
    have hmap : (stream_id_to_hex id).map lowerAscii = stream_id_to_hex id :=
      map_self_of (fun c hc => by
        obtain ⟨n, hn, rfl⟩ := hchar hc
        exact (hexDigitChar_facts n hn).2.2.2.2.1)
    rw [htrim, hfilter, hmap, if_neg (by rw [stream_id_to_hex_length, hlen]; norm_num)]
    exact parsePairs_to_hex id 0
  · intro id hlen
    unfold parse_stream_id_hex
    have htrim : trimChars ((stream_id_to_hex id).map upperAscii)
        = (stream_id_to_hex id).map upperAscii :=
      trimChars_of_no_ws (fun c hc => by
        obtain ⟨x, hx, rfl⟩ := List.mem_map.mp hc
        obtain ⟨n, hn, rfl⟩ := hchar hx
        exact (hexDigitChar_facts n hn).2.2.2.2.2.2.1)
    have hfilter : ((stream_id_to_hex id).map upperAscii).filter (fun c => c ≠ '-')
        = (stream_id_to_hex id).map upperAscii :=
      filter_all_true (fun c hc => by
        obtain ⟨x, hx, rfl⟩ := List.mem_map.mp hc
        obtain ⟨n, hn, rfl⟩ := hchar hx
        simp [(hexDigitChar_facts n hn).2.2.2.2.2.2.2.1])
    have hmap : ((stream_id_to_hex id).map upperAscii).map lowerAscii = stream_id_to_hex id := by
      rw [List.map_map]
      exact map_self_of (fun c hc => by
        obtain ⟨n, hn, rfl⟩ := hchar hc
        exact (hexDigitChar_facts n hn).2.2.2.2.2.1)
    rw [htrim, hfilter, hmap, if_neg (by rw [stream_id_to_hex_length, hlen]; norm_num)]
    exact parsePairs_to_hex id 0
  · intro s hws
    unfold parse_stream_id_hex
    have h1 : trimChars s = s := trimChars_of_no_ws hws
    have h2 : trimChars (s.filter (fun c => c ≠ '-')) = s.filter (fun c => c ≠ '-') :=
      trimChars_of_no_ws (fun c hc => hws c (List.mem_of_mem_filter hc))
    have h3 : (s.filter (fun c => c ≠ '-')).filter (fun c => c ≠ '-')
        = s.filter (fun c => c ≠ '-') :=
      filter_all_true (fun c hc => (List.mem_filter.mp hc).2)
    rw [h1, h2, h3]
  · intro s out h
    unfold parse_stream_id_hex at h
    dsimp only at h
    split at h
    · exact absurd h (by simp)
    · next hcond => omega

/-- C9 counterexample input: `+f` sixteen times — 32 characters after
stripping, but only 16 of them hex digits. -/
def cxPlusInput : List Char := (List.replicate 16 ['+', 'f']).flatten

/-- C9 counterexample: `parse_stream_id_hex` succeeds on `"+f+f…+f"`
because `u8::from_str_radix` accepts a leading `+` per pair, so
"succeeds only when exactly 32 hex digits remain after stripping" is false
as stated. -/
theorem parse_stream_id_hex_plus_cx :
    parse_stream_id_hex cxPlusInput = .ok (List.replicate 16 (15 : Byte)) ∧
    ¬ (∀ c ∈ (trimChars cxPlusInput).filter (fun c => c ≠ '-'),
        (hexDigitVal c).isSome = true) :=
  ⟨by rfl, by decide⟩

def sampleStreamId : List Byte := List.replicate 16 (0xab : Byte)

theorem stream_id_hex_roundtrip_witness :
    parse_stream_id_hex (stream_id_to_hex sampleStreamId) = .ok sampleStreamId :=
  stream_id_hex_roundtrip.1 sampleStreamId (by decide)

/-- C7: `handle_input_event` always increments `events_received`; with the
session inactive it increments `events_dropped_inactive` and issues no
injection; with it active, mouse-move deltas are clamped to `[-300, 300]`
and wheel deltas to `[-960, 960]` before injection, and the kind-specific
counter is incremented. -/
theorem handle_input_event_spec (injectOk : InjectCall → Bool) (event : ClientMessage)
    (active : Bool) (stats : SharedServerStats) :
    (handle_input_event injectOk event active stats).1.events_received
      = stats.events_received + 1 ∧
    (active = false →
      (handle_input_event injectOk event active stats).1.events_dropped_inactive
        = stats.events_dropped_inactive + 1 ∧
      (handle_input_event injectOk event active stats).2 = none ∧
      (handle_input_event injectOk event active stats).1.mouse_moves = stats.mouse_moves ∧
      (handle_input_event injectOk event active stats).1.mouse_buttons = stats.mouse_buttons ∧
      (handle_input_event injectOk event active stats).1.mouse_wheels = stats.mouse_wheels ∧
      (handle_input_event injectOk event active stats).1.key_events = stats.key_events ∧
      (handle_input_event injectOk event active stats).1.disconnect_hotkeys
        = stats.disconnect_hotkeys ∧
      (handle_input_event injectOk event active stats).1.events_injected
        = stats.events_injected ∧
      (handle_input_event injectOk event active stats).1.inject_errors = stats.inject_errors) ∧
    (active = true →
      (handle_input_event injectOk event active stats).1.events_dropped_inactive
        = stats.events_dropped_inactive ∧
      (∀ s t dx dy, event = .mouseMove s t dx dy →
        (handle_input_event injectOk event active stats).2
          = some (.mouseMove (rclamp dx (-300) 300) (rclamp dy (-300) 300)) ∧
        (handle_input_event injectOk event active stats).1.mouse_moves
          = stats.mouse_moves + 1) ∧
      (∀ s t button down, event = .mouseButton s t button down →
        (handle_input_event injectOk event active stats).2 = some (.mouseButton button down) ∧
        (handle_input_event injectOk event active stats).1.mouse_buttons
          = stats.mouse_buttons + 1) ∧
      (∀ s t dx dy, event = .mouseWheel s t dx dy →
        (handle_input_event injectOk event active stats).2
          = some (.mouseWheel (rclamp dx (-960) 960) (rclamp dy (-960) 960)) ∧
        (handle_input_event injectOk event active stats).1.mouse_wheels
          = stats.mouse_wheels + 1) ∧
      (∀ s t code down c a sh m, event = .key s t code down c a sh m →
        (handle_input_event injectOk event active stats).2 = some (.key code down) ∧
        (handle_input_event injectOk event active stats).1.key_events
          = stats.key_events + 1) ∧
      (∀ s t, event = .disconnectHotkey s t →
        (handle_input_event injectOk event active stats).2 = none ∧
        (handle_input_event injectOk event active stats).1.disconnect_hotkeys
          = stats.disconnect_hotkeys + 1)) := by
  cases active <;> cases event <;>
    simp [handle_input_event] <;>
    split <;> simp <;> aesop

theorem handle_input_event_spec_witness :
    (handle_input_event (fun _ => true) (.mouseMove 1 2 500 (-7)) true {}).2
      = some (.mouseMove (rclamp 500 (-300) 300) (rclamp (-7) (-300) 300)) :=
  (((handle_input_event_spec (fun _ => true) (.mouseMove 1 2 500 (-7)) true {}).2.2 rfl).2.1
    1 2 500 (-7) rfl).1

theorem bool_of_not_not {b : Bool} (h : ¬ ((!b) = true)) : b = true := by
  cases b
  · exact absurd rfl h
  · rfl

theorem bool_false_of_not {b : Bool} (h : ¬ (b = true)) : b = false := by
  cases b
  · rfl
  · exact absurd rfl h

/-- C5: the auth gate validates in the precedence order `token_expired`,
`invalid_token`, `invalid_session`, `invalid_stream`, `session_inactive`;
the first failing check names the `auth_error` reason and bumps
`auth_failures`; full success bumps `authenticated_clients` and replies
`auth_ok`. -/
theorem auth_precedence_spec (config : ServerConfig) (now_ms : Nat) (active : Bool)
    (token : String) (session_id stream_id : Option String) (stats : SharedServerStats) :
    ((authenticate config now_ms active token session_id stream_id stats).2
        = .authError "token_expired" ↔
      (∃ e, config.auth_expires_at_ms = some e ∧ e < now_ms)) ∧
    ((authenticate config now_ms active token session_id stream_id stats).2
        = .authError "invalid_token" ↔
      (¬ (∃ e, config.auth_expires_at_ms = some e ∧ e < now_ms)) ∧ token ≠ config.auth_token) ∧
    ((authenticate config now_ms active token session_id stream_id stats).2
        = .authError "invalid_session" ↔
      (¬ (∃ e, config.auth_expires_at_ms = some e ∧ e < now_ms)) ∧ token = config.auth_token ∧
      ¬ (∀ e, config.session_id = some e → session_id = some e)) ∧
    ((authenticate config now_ms active token session_id stream_id stats).2
        = .authError "invalid_stream" ↔
      (¬ (∃ e, config.auth_expires_at_ms = some e ∧ e < now_ms)) ∧ token = config.auth_token ∧
      (∀ e, config.session_id = some e → session_id = some e) ∧
      ¬ (∀ e, config.stream_id = some e → stream_id = some e)) ∧
    ((authenticate config now_ms active token session_id stream_id stats).2
        = .authError "session_inactive" ↔
      (¬ (∃ e, config.auth_expires_at_ms = some e ∧ e < now_ms)) ∧ token = config.auth_token ∧
      (∀ e, config.session_id = some e → session_id = some e) ∧
      (∀ e, config.stream_id = some e → stream_id = some e) ∧ active = false) ∧
    ((authenticate config now_ms active token session_id stream_id stats).2 = .authOk ↔
      (¬ (∃ e, config.auth_expires_at_ms = some e ∧ e < now_ms)) ∧ token = config.auth_token ∧
      (∀ e, config.session_id = some e → session_id = some e) ∧
      (∀ e, config.stream_id = some e → stream_id = some e) ∧ active = true) ∧
    ((authenticate config now_ms active token session_id stream_id stats).2 = .authOk →
      (authenticate config now_ms active token session_id stream_id stats).1
        = { stats with authenticated_clients := stats.authenticated_clients + 1 }) ∧
    (∀ r, (authenticate config now_ms active token session_id stream_id stats).2
        = .authError r →
      (authenticate config now_ms active token session_id stream_id stats).1
        = { stats with auth_failures := stats.auth_failures + 1 }) := by
  have hexpiff : (match config.auth_expires_at_ms with
      | some expires_at_ms => decide (expires_at_ms < now_ms)
      | none => false) = true ↔
      (∃ e, config.auth_expires_at_ms = some e ∧ e < now_ms) := by
    cases h : config.auth_expires_at_ms <;> simp
  have hsessiff : (match config.session_id, session_id with
      | some expected, some provided => expected == provided
      | some _, none => false
      | _, _ => true) = true ↔
      (∀ e, config.session_id = some e → session_id = some e) := by
    cases h1 : config.session_id <;> cases h2 : session_id <;> simp
    exact eq_comm
  have hstriff : (match config.stream_id, stream_id with
      | some expected, some provided => expected == provided
      | some _, none => false
      | _, _ => true) = true ↔
      (∀ e, config.stream_id = some e → stream_id = some e) := by
    cases h1 : config.stream_id <;> cases h2 : stream_id <;> simp
    exact eq_comm
  unfold authenticate
  dsimp only
  split
  case isTrue hcond =>
    split
    case isTrue hE =>
      have hTE := hexpiff.mp hE
      dsimp only
      exact ⟨iff_of_true rfl hTE,
        iff_of_false (by decide) (fun h => h.1 hTE),
        iff_of_false (by decide) (fun h => h.1 hTE),
        iff_of_false (by decide) (fun h => h.1 hTE),
        iff_of_false (by decide) (fun h => h.1 hTE),
        iff_of_false (by decide) (fun h => h.1 hTE),
        fun h => absurd h (by decide),
        fun r hr => rfl⟩
    case isFalse hE =>
      have hnTE : ¬ (∃ e, config.auth_expires_at_ms = some e ∧ e < now_ms) :=
        fun h => hE (hexpiff.mpr h)
      split
      case isTrue hT =>
        have hnTOK : ¬ token = config.auth_token := by simpa using hT
        dsimp only
        exact ⟨iff_of_false (by decide) (fun h => hnTE h),
          iff_of_true rfl ⟨hnTE, hnTOK⟩,
          iff_of_false (by decide) (fun h => hnTOK h.2.1),
          iff_of_false (by decide) (fun h => hnTOK h.2.1),
          iff_of_false (by decide) (fun h => hnTOK h.2.1),
          iff_of_false (by decide) (fun h => hnTOK h.2.1),
          fun h => absurd h (by decide),
          fun r hr => rfl⟩
      case isFalse hT =>
        have hTOK : token = config.auth_token := by simpa using hT
        split
        case isTrue hS =>
          have hnSESS : ¬ (∀ e, config.session_id = some e → session_id = some e) := by
            intro hp
            rw [hsessiff.mpr hp] at hS
            exact absurd hS (by decide)
          dsimp only
          exact ⟨iff_of_false (by decide) (fun h => hnTE h),
            iff_of_false (by decide) (fun h => h.2 hTOK),
            iff_of_true rfl ⟨hnTE, hTOK, hnSESS⟩,
            iff_of_false (by decide) (fun h => hnSESS h.2.2.1),
            iff_of_false (by decide) (fun h => hnSESS h.2.2.1),
            iff_of_false (by decide) (fun h => hnSESS h.2.2.1),
            fun h => absurd h (by decide),
            fun r hr => rfl⟩
        case isFalse hS =>
          have hSESS : ∀ e, config.session_id = some e → session_id = some e :=
            hsessiff.mp (bool_of_not_not hS)
          split
          case isTrue hR =>
            have hnSTR : ¬ (∀ e, config.stream_id = some e → stream_id = some e) := by
              intro hp
              rw [hstriff.mpr hp] at hR
              exact absurd hR (by decide)
            dsimp only
            exact ⟨iff_of_false (by decide) (fun h => hnTE h),
              iff_of_false (by decide) (fun h => h.2 hTOK),
              iff_of_false (by decide) (fun h => h.2.2 hSESS),
              iff_of_true rfl ⟨hnTE, hTOK, hSESS, hnSTR⟩,
              iff_of_false (by decide) (fun h => hnSTR h.2.2.2.1),
              iff_of_false (by decide) (fun h => hnSTR h.2.2.2.1),
              fun h => absurd h (by decide),
              fun r hr => rfl⟩
          case isFalse hR =>
            have hSTR : ∀ e, config.stream_id = some e → stream_id = some e :=
              hstriff.mp (bool_of_not_not hR)
            have hACT : active = false := by
              by_contra hx
              have hact : active = true := by
                cases active
                · exact absurd rfl hx
                · rfl
              have h1 : (token == config.auth_token) = true := by simpa using hTOK
              have h2 := bool_false_of_not hE
              have h3 := bool_of_not_not hS
              have h4 := bool_of_not_not hR
              apply hcond
              rw [h1, h2, h3, h4, hact]
              rfl
            dsimp only
            exact ⟨iff_of_false (by decide) (fun h => hnTE h),
              iff_of_false (by decide) (fun h => h.2 hTOK),
              iff_of_false (by decide) (fun h => h.2.2 hSESS),
              iff_of_false (by decide) (fun h => h.2.2.2 hSTR),
              iff_of_true rfl ⟨hnTE, hTOK, hSESS, hSTR, hACT⟩,
              iff_of_false (by decide) (fun h => by rw [hACT] at h; exact absurd h.2.2.2.2 (by decide)),
              fun h => absurd h (by decide),
              fun r hr => rfl⟩
  case isFalse hcond =>
    have hb := not_not.mp hcond
    simp only [Bool.and_eq_true] at hb
    obtain ⟨⟨⟨⟨hb1, hb2⟩, hb3⟩, hb4⟩, hb5⟩ := hb
    have hTOK : token = config.auth_token := by simpa using hb1
    have hnTE : ¬ (∃ e, config.auth_expires_at_ms = some e ∧ e < now_ms) := by
      intro h
      rw [hexpiff.mpr h] at hb2
      exact absurd hb2 (by decide)
    have hSESS := hsessiff.mp hb3
    have hSTR := hstriff.mp hb4
    have hACT : active = true := hb5
    dsimp only
    exact ⟨iff_of_false (by decide) (fun h => hnTE h),
      iff_of_false (by decide) (fun h => h.2 hTOK),
      iff_of_false (by decide) (fun h => h.2.2 hSESS),
      iff_of_false (by decide) (fun h => h.2.2.2 hSTR),
      iff_of_false (by decide) (fun h => by rw [hACT] at h; exact absurd h.2.2.2.2 (by decide)),
      iff_of_true rfl ⟨hnTE, hTOK, hSESS, hSTR, hACT⟩,
      fun _ => rfl,
      fun r hr => AuthReply.noConfusion hr⟩

def cxConfig : ServerConfig :=
  { auth_token := "secret", auth_expires_at_ms := some 1000, session_id := none,
    stream_id := none, max_events_per_second := 700 }

theorem auth_precedence_spec_witness :
    (authenticate cxConfig 2000 true "secret" none none {}).2 = .authError "token_expired" :=
  (auth_precedence_spec cxConfig 2000 true "secret" none none {}).1.mpr
    ⟨1000, rfl, by decide⟩

theorem bool_eq_false_of_not_true {b : Bool} (h : (!b) = true) : b = false := by
  cases b
  · rfl
  · simp at h

/-- C10: once `maxEventsPerSecond` events have been admitted in the current
window (no reset due at this line), a further parsed non-auth line bumps
only `events_dropped_rate`: every other counter, the rate window, the rate
count and the session-active flag are unchanged and no injector call is
issued; unparseable lines and repeated auth lines are skipped before the
rate gate and consume no window budget. -/
theorem rate_excess_frame_effect (config : ServerConfig) (injectOk : InjectCall → Bool)
    (st : ConnState) (now_ms : Nat) (msg : ClientMessage)
    (hreset : should_reset_rate_window st.rate_window_start now_ms = false)
    (hauth : msg.isAuth = false)
    (hmax : config.max_events_per_second ≤ st.rate_events) :
    connStep config injectOk st now_ms (some msg)
      = ({ st with stats := { st.stats with
            events_dropped_rate := st.stats.events_dropped_rate + 1 } }, none, false) ∧
    connStep config injectOk st now_ms none = (st, none, false) ∧
    (∀ tok si sti v, connStep config injectOk st now_ms (some (.auth tok si sti v))
      = (st, none, false)) := by
  unfold connStep
  rw [if_neg (by simp [hreset])]
  refine ⟨?_, rfl, fun tok si sti v => rfl⟩
  dsimp only
  rw [if_neg (by simp [hauth]), if_pos hmax]

def cfg60 : ServerConfig :=
  { auth_token := "t", auth_expires_at_ms := none, session_id := none,
    stream_id := none, max_events_per_second := 60 }

def connInit : ConnState :=
  { session_active := true, rate_window_start := 0, rate_events := 60, stats := {} }

theorem rate_excess_frame_effect_witness :
    connStep cfg60 (fun _ => true) connInit 500 (some (.mouseMove 0 0 1 1))
      = ({ connInit with stats := { connInit.stats with
            events_dropped_rate := connInit.stats.events_dropped_rate + 1 } }, none, false) :=
  (rate_excess_frame_effect cfg60 (fun _ => true) connInit 500 (.mouseMove 0 0 1 1)
    (by decide) (by decide) (by decide)).1

/-- One no-reset iteration: admission happens only below the limit and
consumes one budget unit; otherwise the rate count is unchanged. -/
theorem connStep_rate (config : ServerConfig) (injectOk : InjectCall → Bool)
    (st : ConnState) (now_ms : Nat) (line : Option ClientMessage)
    (hreset : should_reset_rate_window st.rate_window_start now_ms = false) :
    ((connStep config injectOk st now_ms line).2.2 = true →
      st.rate_events < config.max_events_per_second ∧
      (connStep config injectOk st now_ms line).1.rate_events = st.rate_events + 1) ∧
    ((connStep config injectOk st now_ms line).2.2 = false →
      (connStep config injectOk st now_ms line).1.rate_events = st.rate_events) := by
  unfold connStep
  rw [if_neg (by simp [hreset])]
  cases line with
  | none => exact ⟨fun h => by simp at h, fun _ => rfl⟩
  | some msg =>
    dsimp only
    by_cases hauth : msg.isAuth = true
    · rw [if_pos hauth]
      exact ⟨fun h => by simp at h, fun _ => rfl⟩
    · rw [if_neg hauth]
      by_cases hmax : config.max_events_per_second ≤ st.rate_events
      · rw [if_pos hmax]
        exact ⟨fun h => by simp at h, fun _ => rfl⟩
      · rw [if_neg hmax]
        dsimp only
        exact ⟨fun _ => ⟨by omega, rfl⟩, fun h => by simp at h⟩

/-- C4 (amended): within one rate-window instance (a trace segment during
which no reset fires), the number of events passed to the injection step is
at most `maxEventsPerSecond` minus the budget already used, and the budget
counter tracks the admitted events exactly.  A reset fires exactly when at
least one second has elapsed since the window start
(`should_reset_rate_window`), so a one-second sliding window can straddle
two instances — the sliding-window bound of the original claim fails, see
the counterexample. -/
theorem rate_window_instance_bound (config : ServerConfig) (injectOk : InjectCall → Bool)
    (st : ConnState) (seg : List (Nat × Option ClientMessage))
    (hinv : st.rate_events ≤ config.max_events_per_second)
    (hnr : noResetDuring config injectOk st seg = true) :
    (runConn config injectOk st seg).2.length + st.rate_events
      ≤ config.max_events_per_second ∧
    (runConn config injectOk st seg).1.rate_events
      = st.rate_events + (runConn config injectOk st seg).2.length := by
  induction seg generalizing st with
  | nil =>
    constructor
    · simpa [runConn] using hinv
    · simp [runConn]
  | cons p rest ih =>
    obtain ⟨t, line⟩ := p
    unfold noResetDuring at hnr
    rw [Bool.and_eq_true] at hnr
    obtain ⟨h1, h2⟩ := hnr
    have h1' := bool_eq_false_of_not_true h1
    have hs := connStep_rate config injectOk st t line h1'
    have hrun : runConn config injectOk st ((t, line) :: rest)
        = ((runConn config injectOk (connStep config injectOk st t line).1 rest).1,
           (if (connStep config injectOk st t line).2.2 then [t] else []) ++
             (runConn config injectOk (connStep config injectOk st t line).1 rest).2) := rfl
    rw [hrun]
    dsimp only
    cases hadm : (connStep config injectOk st t line).2.2 with
    | false =>
      have hrate := hs.2 hadm
      have := ih (connStep config injectOk st t line).1 (by omega) h2
      simp only [hadm, if_neg (by simp : ¬ (false = true)), List.nil_append]
      omega
    | true =>
      have hrate := hs.1 hadm
      have := ih (connStep config injectOk st t line).1 (by omega) h2
      simp only [hadm]
      simp
      omega

def connStart : ConnState :=
  { session_active := true, rate_window_start := 0, rate_events := 0, stats := {} }

theorem rate_window_instance_bound_witness :
    (runConn cfg60 (fun _ => true) connStart
        [(10, some (ClientMessage.mouseMove 0 0 0 0))]).2.length
      + connStart.rate_events ≤ cfg60.max_events_per_second :=
  (rate_window_instance_bound cfg60 (fun _ => true) connStart
    [(10, some (ClientMessage.mouseMove 0 0 0 0))] (by decide) (by decide)).1

/-- C4 counterexample trace: 60 events at t = 999 ms (all admitted inside
the first window instance), then one at t = 1001 ms, where ≥ 1 s has
elapsed, so the window resets and the event is admitted too. -/
def cxRateTrace : List (Nat × Option ClientMessage) :=
  List.replicate 60 (999, some (.mouseMove 0 0 0 0)) ++ [(1001, some (.mouseMove 0 0 0 0))]

/-- C4 counterexample: with `maxEventsPerSecond = 60`, the closed interval
`[999, 1001]` (2 ms long, inside a one-second sliding window) contains 61
events passed to the injection step — the sliding-window bound fails. -/
theorem rate_sliding_window_cx :
    1001 - 999 ≤ 1000 ∧
    cfg60.max_events_per_second <
      ((runConn cfg60 (fun _ => true) connStart cxRateTrace).2.filter
        (fun t => 999 ≤ t && t ≤ 1001)).length := by
  decide

/-- C6 counterexample input: a well-formed feedback message. -/
def cxFeedbackMsg : UdpLanFeedbackMessage :=
  { message_type := "latency_report", version := none, token := "tok", sessionId := none,
    streamId := none, lossPct := none, jitterMs := none, freezeMs := none,
    requestedBitrateKbps := none, reason := none }

/-- C6 counterexample: with a running receiver but no observed remote, the
send fails with "receiver UDP ainda nao possui remoto ativo." — not the
claim's quoted "receiver ainda nao possui remoto ativo". -/
theorem feedback_no_remote_message_cx :
    send_udp_lan_feedback (some { remote := none, active_stream_id := none }) 0 cxFeedbackMsg
      = .error "receiver UDP ainda nao possui remoto ativo." ∧
    "receiver UDP ainda nao possui remoto ativo." ≠ "receiver ainda nao possui remoto ativo" :=
  ⟨by rfl, by decide⟩

/-- C6 (amended): for a message with non-empty trimmed `type` and `token`
and a running receiver, the send fails with
"receiver UDP ainda nao possui remoto ativo." exactly when no remote has
been observed; otherwise the wire message goes to the observed remote with
`lossPct` clamped into `[0,100]`, `jitterMs` into `[0,10000]`, `freezeMs`
to at most `60000`, `requestedBitrateKbps` into `[100,500000]`, the
effective `streamId` falling back from the caller's value to the latched
one, and `sentAtUs = now_us`. -/
theorem send_udp_lan_feedback_spec (route : UdpLanFeedbackRoute) (now_us : Nat)
    (message : UdpLanFeedbackMessage)
    (htype : stringIsEmpty (trimString message.message_type) = false)
    (htok : stringIsEmpty (trimString message.token) = false) :
    (route.remote = none →
      send_udp_lan_feedback (some route) now_us message
        = .error "receiver UDP ainda nao possui remoto ativo.") ∧
    (∀ r, route.remote = some r →
      ∃ w, send_udp_lan_feedback (some route) now_us message = .ok (w, r) ∧
        w.sentAtUs = now_us ∧
        w.message_type = trimString message.message_type ∧
        w.token = trimString message.token ∧
        w.streamId = (optTrimNonEmpty message.streamId).or
          (route.active_stream_id.map (fun id => String.mk (stream_id_to_hex id))) ∧
        w.lossPct = message.lossPct.map (fun v => min (max v 0) 100) ∧
        w.jitterMs = message.jitterMs.map (fun v => min (max v 0) 10000) ∧
        w.freezeMs = message.freezeMs.map (fun v => min v 60000) ∧
        w.requestedBitrateKbps
          = message.requestedBitrateKbps.map (fun v => min (max v 100) 500000) ∧
        (∀ x, w.lossPct = some x → 0 ≤ x ∧ x ≤ 100) ∧
        (∀ x, w.jitterMs = some x → 0 ≤ x ∧ x ≤ 10000) ∧
        (∀ x, w.freezeMs = some x → x ≤ 60000) ∧
        (∀ x, w.requestedBitrateKbps = some x → 100 ≤ x ∧ x ≤ 500000)) := by
  unfold send_udp_lan_feedback
  rw [if_neg (by simp [htype]), if_neg (by simp [htok])]
  dsimp only
  constructor
  · intro hremote
    rw [hremote]
  · intro r hr
    rw [hr]
    refine ⟨_, rfl, rfl, rfl, rfl, rfl, rfl, rfl, rfl, rfl, ?_, ?_, ?_, ?_⟩
    · intro x hx
      cases hv : message.lossPct with
      | none => simp [hv] at hx
      | some v =>
        simp only [hv, Option.map_some', Option.some.injEq] at hx
        subst hx
        exact ⟨le_min (le_max_right v 0) (by norm_num), min_le_right _ _⟩
    · intro x hx
      cases hv : message.jitterMs with
      | none => simp [hv] at hx
      | some v =>
        simp only [hv, Option.map_some', Option.some.injEq] at hx
        subst hx
        exact ⟨le_min (le_max_right v 0) (by norm_num), min_le_right _ _⟩
    · intro x hx
      cases hv : message.freezeMs with
      | none => simp [hv] at hx
      | some v =>
        simp only [hv, Option.map_some', Option.some.injEq] at hx
        subst hx
        exact min_le_right _ _
    · intro x hx
      cases hv : message.requestedBitrateKbps with
      | none => simp [hv] at hx
      | some v =>
        simp only [hv, Option.map_some', Option.some.injEq] at hx
        subst hx
        exact ⟨le_min (le_max_right v 100) (by norm_num), min_le_right _ _⟩

theorem send_udp_lan_feedback_spec_witness :
    send_udp_lan_feedback (some { remote := none, active_stream_id := none }) 7 cxFeedbackMsg
      = .error "receiver UDP ainda nao possui remoto ativo." :=
  (send_udp_lan_feedback_spec { remote := none, active_stream_id := none } 7 cxFeedbackMsg
    (by decide) (by decide)).1 rfl
